import Mathlib

/-!
Verification of the OpenExempt exemption allocation engine.

This file gives a shallow embedding, in Lean 4, of the allocation state
machine and branch-and-bound optimizer of `source/solver.py`, and of the
claim-replay/scoring pieces of `evaluator.py`, and proves properties of the
embedded definitions.

Modelling conventions:
* Python dictionaries are modelled as insertion-ordered association lists
  (`Dict α` below); `d[k]` on a missing key (a `KeyError`) is modelled by the
  surrounding operation returning `.error ()` in the `Except Unit` monad.
* Python `float` dollar amounts are modelled by `Int`: every allocation-side
  operation (addition, subtraction, `min`, comparison) is identical over any
  ordered ring, so nothing proved here depends on integrality.  The one true
  division in the engine, the precomputed per-item amount `limit / count`, is
  modelled as exact integer division (the statutory limits are integral
  multiples of their counts); the scorer's relative-error division keeps `Rat`.
* `None`-able Python values are modelled by `Option`.
* Python's `deepcopy` is the identity under a purely functional state.
* Unbounded recursion / `while` loops are given explicit fuel; running out of
  fuel returns `.error ()`, modelling Python nontermination / RecursionError.
-/

namespace OpenExempt

/-- A Python `dict` with `String` keys: an association list in insertion
order. Lookups scan for the key; inserting an existing key overwrites its
value in place, and inserting a new key appends it at the end, matching
Python dict insertion-order semantics. -/
abbrev Dict (α : Type) : Type := List (String × α)

namespace Dict

/-- `d.get k` / `k in d`: first (hence unique, for dicts built by `insert`)
binding of key `k`. -/
def find? {α : Type} : Dict α → String → Option α
  | [], _ => none
  | (k', v) :: rest, k => if k' = k then some v else find? rest k

/-- `d[k] = v`: overwrite the existing binding of `k` in place, or append a
new binding at the end. -/
def insert {α : Type} : Dict α → String → α → Dict α
  | [], k, v => [(k, v)]
  | (k', v') :: rest, k, v =>
      if k' = k then (k', v) :: rest else (k', v') :: insert rest k v

end Dict

/-- `source/statute.py` `Exemption`: an exemption statute.  Integer limits are
modelled as `Option Int`, `none` denoting Python `None` (no limit /
unlimited).  `description` is carried but irrelevant to allocation. -/
structure Exemption where
  citation : String
  description : String := ""
  single_limit : Option Int := none
  married_limit : Option Int := none
  per_item_limit : Option Int := none
  single_item_claim_count : Option Int := none
  married_item_claim_count : Option Int := none
  fallback_relationship : Option String := none
  single_fallback_limit : Option Int := none
  married_fallback_limit : Option Int := none
  mutual_exclusion : Option String := none
deriving Repr, DecidableEq

/-- `source/asset.py` `Asset`.  `category_hints` plays no role in allocation
and is omitted. -/
structure Asset where
  description : String
  dollar_value : Int
  applicable_exemptions : List String
deriving Repr, DecidableEq

/-- The fields of `source/case.py` `Case` consumed by the solver: the asset
list and `has_married_couple()` (truthiness of `joint_debtor`). -/
structure Case where
  assets : List Asset
  has_married_couple : Bool
deriving Repr, DecidableEq

/-- `source/solver.py` `Solution`: the mutable allocation state for one
(case, jurisdiction) pair. -/
structure Solution where
  /-- citation → exemption, treated as an immutable copy of exemption values -/
  exemptions : Dict Exemption
  /-- citation → remaining balance (`none` value = no exemption limit) -/
  unclaimed_exemptions : Dict (Option Int)
  /-- asset description → list of `{citation, claim_value}` entries -/
  claimed_exemptions : Dict (List (String × Int))
  /-- asset description → non-exempt residual value -/
  non_exempt_assets : Dict Int
  /-- citation → remaining item claim count (`none` value = not item-limited) -/
  remaining_item_claim_counts : Dict (Option Int)
  /-- citation → claim amount per item (`none` value = no per-item amount) -/
  item_claim_amounts : Dict (Option Int)
  /-- to-citation → (from-citation, remaining fallback balance) -/
  remaining_fallback_relationships : Dict (Option String × Option Int)
  /-- citations disabled by a triggered mutual exclusion relationship -/
  excluded_exemptions : List String
deriving Repr, DecidableEq

namespace Solution

/-- `Solution.total_non_exempt_value`: sum of the non-exempt asset values. -/
def total_non_exempt_value (s : Solution) : Int :=
  (s.non_exempt_assets.map (fun p => p.2)).sum

/-- `Solution._process_claim` (solver.py lines 61-70): draw `claim_amount`
from the unclaimed balance of `citation`.  A missing key is a Python
`KeyError`, modelled as `.error ()`. -/
def _process_claim (s : Solution) (citation : String) (claim_amount : Int) :
    Except Unit (Int × Solution) :=
  match s.unclaimed_exemptions.find? citation with
  | none => .error ()
  | some none => .ok (claim_amount, s)
  | some (some available_amount) =>
      if available_amount ≥ claim_amount then
        .ok (claim_amount,
          { s with unclaimed_exemptions :=
              (s.unclaimed_exemptions.insert citation
                (some (available_amount - claim_amount))) })
      else if available_amount > 0 then
        .ok (available_amount,
          { s with unclaimed_exemptions :=
              (s.unclaimed_exemptions.insert citation (some 0)) })
      else
        .ok (available_amount, s)

/-- Line 45 of `allocate_claim_amount`: cap the request at the item claim
amount when one applies (`None` means no cap). -/
def cap_item (claim_amount : Int) (item_claim_amount : Option Int) : Int :=
  match item_claim_amount with
  | none => claim_amount
  | some a => min a claim_amount

/-- Line 47 of `allocate_claim_amount`: cap further at `per_item_limit` when
present. -/
def cap_per_item (capped : Int) (per_item_limit : Option Int) : Int :=
  match per_item_limit with
  | none => capped
  | some l => min l capped

/-- Lines 45-58 of `Solution.allocate_claim_amount`: cap the request at the
item claim amount and `per_item_limit`, draw from the balance, and draw any
shortfall from the fallback relationship. `item_claim_amount` is the local
variable of the same name computed by lines 38-44. -/
def allocate_capped (s : Solution) (citation : String) (claim_amount : Int)
    (item_claim_amount : Option Int) : Except Unit (Int × Solution) :=
  match s.exemptions.find? citation with
  | none => .error ()
  | some exemption =>
    let max_claim_amount :=
      cap_per_item (cap_item claim_amount item_claim_amount) exemption.per_item_limit
    match s._process_claim citation max_claim_amount with
    | .error e => .error e
    | .ok (amount_claimed, s1) =>
      if amount_claimed < max_claim_amount then
        -- Exemption has been exhausted, check for any fallback relationships
        match s1.remaining_fallback_relationships.find? citation with
        | none => .error ()
        | some (from_citation, balance) =>
          match from_citation with
          | none => .ok (amount_claimed, s1)
          | some fc =>
            match balance with
            -- `min(None, _)` raises TypeError in Python
            | none => .error ()
            | some bal =>
              let remaining_claim_amount := min bal (max_claim_amount - amount_claimed)
              match s1._process_claim fc remaining_claim_amount with
              | .error e => .error e
              | .ok (fallback_relationship_amount, s2) =>
                if fallback_relationship_amount > 0 then
                  .ok (amount_claimed + fallback_relationship_amount,
                    { s2 with remaining_fallback_relationships :=
                        (s2.remaining_fallback_relationships.insert citation
                          (some fc, some (bal - fallback_relationship_amount))) })
                else
                  .ok (amount_claimed, s2)
      else
        .ok (amount_claimed, s1)

/-- `Solution.allocate_claim_amount` (solver.py lines 35-58): attempt to
allocate `claim_amount` under `citation` and return the amount actually
allocated together with the updated state. -/
def allocate_claim_amount (s : Solution) (citation : String) (claim_amount : Int) :
    Except Unit (Int × Solution) :=
  if citation ∈ s.excluded_exemptions then
    -- Mutual exclusion relationship has been triggered for this exemption
    .ok (0, s)
  else
    match s.remaining_item_claim_counts.find? citation with
    | none => .error ()
    | some remaining_item_claim_count =>
      match remaining_item_claim_count with
      | none => s.allocate_capped citation claim_amount none
      | some n =>
        if n < 1 then
          -- No more claims remaining
          .ok (0, s)
        else
          let s1 : Solution :=
            { s with remaining_item_claim_counts :=
                (s.remaining_item_claim_counts.insert citation (some (n - 1))) }
          match s1.item_claim_amounts.find? citation with
          | none => .error ()
          | some item_claim_amount =>
              s1.allocate_capped citation claim_amount item_claim_amount

/-- The scan-and-merge of `claim_exemption` over one asset's recorded claim
entries: add to an existing entry for `citation`, else append a new one. -/
def mergeClaim (entries : List (String × Int)) (citation : String)
    (claim_amount : Int) : List (String × Int) :=
  match entries with
  | [] => [(citation, claim_amount)]
  | (c, v) :: rest =>
      if c = citation then (c, v + claim_amount) :: rest
      else (c, v) :: mergeClaim rest citation claim_amount

/-- Lines 74-77 of `claim_exemption`: trigger the mutual exclusion
relationship if one exists.  Python's `if exemption.mutual_exclusion:` is a
truthiness test, so `None` and the empty string do not trigger. -/
def trigger_mutual_exclusion (s : Solution) (exemption : Exemption) : Solution :=
  match exemption.mutual_exclusion with
  | some target =>
      if target = "" then s
      else { s with excluded_exemptions := (s.excluded_exemptions ++ [target]) }
  | none => s

/-- `Solution.claim_exemption` (solver.py lines 73-87): record an allocated
amount against an asset, merging into an existing citation entry, after
triggering any mutual exclusion relationship. -/
def claim_exemption (s : Solution) (citation : String) (asset_description : String)
    (claim_amount : Int) : Except Unit Solution :=
  match s.exemptions.find? citation with
  | none => .error ()
  | some exemption =>
    let s1 : Solution := trigger_mutual_exclusion s exemption
    .ok { s1 with claimed_exemptions :=
            (s1.claimed_exemptions.insert asset_description
              (mergeClaim ((s1.claimed_exemptions.find? asset_description).getD [])
                citation claim_amount)) }

/-- `Solution.item_claim_exists` (solver.py lines 90-92). -/
def item_claim_exists (s : Solution) (citation : String) : Except Unit Bool :=
  match s.remaining_item_claim_counts.find? citation with
  | none => .error ()
  | some remaining_item_claim_count =>
      .ok (match remaining_item_claim_count with
           | none => false
           | some n => decide (0 < n))

end Solution

/-- The limit (`single_limit`/`married_limit`) the Solver constructor selects
for one marital status. -/
def limit_for (married : Bool) (e : Exemption) : Option Int :=
  if married then e.married_limit else e.single_limit

/-- The item claim count the Solver constructor selects for one marital
status. -/
def item_count_for (married : Bool) (e : Exemption) : Option Int :=
  if married then e.married_item_claim_count else e.single_item_claim_count

/-- The per-item claim amount precomputed by the Solver constructor:
`limit / count if count else None`.  Python truthiness makes a `0` count fall
to `None`; dividing a `None` limit by an integer raises TypeError, modelled as
`.error ()`. -/
def item_amount_for (married : Bool) (e : Exemption) : Except Unit (Option Int) :=
  match item_count_for married e with
  | none => .ok none
  | some n =>
      if n = 0 then .ok none
      else
        match limit_for married e with
        | none => .error ()
        | some l => .ok (some (l / n))

/-- The fallback tuple the Solver constructor precomputes for one marital
status. -/
def fallback_for (married : Bool) (e : Exemption) : Option String × Option Int :=
  (e.fallback_relationship,
   if married then e.married_fallback_limit else e.single_fallback_limit)

/-- Building one of the Solver constructor's citation-keyed lookup tables by
iterating over the statute set's exemptions. -/
def buildDict {α : Type} (exs : List Exemption) (f : Exemption → α) : Dict α :=
  exs.foldl (fun d e => d.insert e.citation (f e)) []

/-- Monadic variant of `buildDict`, for the item claim amount table whose
entries can raise at construction time. -/
def buildDictM {α : Type} (exs : List Exemption) (f : Exemption → Except Unit α) :
    Except Unit (Dict α) :=
  exs.foldlM (fun d e => do
    let v ← f e
    return d.insert e.citation v) []

/-- `Solver.init_solution` for one jurisdiction, fused with the part of the
`Solver` constructor that precomputes that jurisdiction's lookup tables:
a fresh `Solution` seeded from the given exemption list for the given marital
status.  `deepcopy` is the identity here. -/
def init_solution (exs : List Exemption) (married : Bool) : Except Unit Solution := do
  let amounts ← buildDictM exs (item_amount_for married)
  return {
    exemptions := buildDict exs (fun e => e)
    unclaimed_exemptions := buildDict exs (limit_for married)
    claimed_exemptions := []
    non_exempt_assets := []
    remaining_item_claim_counts := buildDict exs (item_count_for married)
    item_claim_amounts := amounts
    remaining_fallback_relationships := buildDict exs (fallback_for married)
    excluded_exemptions := [] }

/-- Decidable equality of `Except` results, so that the concrete scenario
theorems can be settled by `decide`. -/
instance {ε α : Type} [DecidableEq ε] [DecidableEq α] : DecidableEq (Except ε α) :=
  fun x y =>
    match x, y with
    | .error e₁, .error e₂ =>
        if h : e₁ = e₂ then .isTrue (h ▸ rfl)
        else .isFalse (fun hc => h (by injection hc))
    | .error _, .ok _ => .isFalse (fun hc => by injection hc)
    | .ok _, .error _ => .isFalse (fun hc => by injection hc)
    | .ok a₁, .ok a₂ =>
        if h : a₁ = a₂ then .isTrue (h ▸ rfl)
        else .isFalse (fun hc => h (by injection hc))

/-- `true` iff an `Except` computation did not raise. -/
def is_ok {ε α : Type} : Except ε α → Bool
  | .ok _ => true
  | .error _ => false

/-- The fallback budget currently available to a citation: the remaining
fallback balance recorded for it, when it has a fallback source and a set
balance, else `0`. -/
def fallback_budget (s : Solution) (c : String) : Int :=
  match s.remaining_fallback_relationships.find? c with
  | some (some _, some b) => b
  | _ => 0

/-- Executable key-coverage condition under which `allocate_claim_amount`'s
fallback handling cannot raise: the citation has a fallback tuple, and if its
source is set, the stored budget is set and the source has a balance entry. -/
def fallback_keys_ok (s : Solution) (c : String) : Bool :=
  match s.remaining_fallback_relationships.find? c with
  | none => false
  | some (none, _) => true
  | some (some fc, b) => b.isSome && (s.unclaimed_exemptions.find? fc).isSome

/-- Executable precondition for `allocate_claim_amount` not to raise: the
citation is a key of every table it consults, and its fallback source (if
set) is usable.  States built by `init_solution` satisfy this for every
citation of the exemption tables whose fallback source is itself listed. -/
def allocate_keys_ok (s : Solution) (c : String) : Bool :=
  (s.remaining_item_claim_counts.find? c).isSome &&
  (s.item_claim_amounts.find? c).isSome &&
  (s.exemptions.find? c).isSome &&
  (s.unclaimed_exemptions.find? c).isSome &&
  fallback_keys_ok s c

/-- Sum of the claim values recorded in `claimed_exemptions` for one asset
description. -/
def claimed_total (s : Solution) (desc : String) : Int :=
  (((s.claimed_exemptions.find? desc).getD []).map (fun p => p.2)).sum

/-- The non-exempt residual recorded for one asset description (`0` when the
asset is fully claimed or absent from `non_exempt_assets`). -/
def residual (s : Solution) (desc : String) : Int :=
  (s.non_exempt_assets.find? desc).getD 0

/-- Python's two-argument `min` on `Solution` values under `__lt__`
(comparison by `total_non_exempt_value`): the second argument is returned
only when strictly smaller. -/
def python_min (a b : Solution) : Solution :=
  if b.total_non_exempt_value < a.total_non_exempt_value then b else a

/-- Stable insertion of an asset into a list sorted ascending by
applicable-exemption count: under an equal key the incumbent stays first. -/
def insert_by_exemption_count (a : Asset) : List Asset → List Asset
  | [] => [a]
  | b :: rest =>
      if a.applicable_exemptions.length < b.applicable_exemptions.length then
        a :: b :: rest
      else
        b :: insert_by_exemption_count a rest

/-- `sorted(assets, key=lambda asset: len(asset.applicable_exemptions))`
(solver.py line 152).  Python's `sorted` is a stable ascending sort, and the
stable ascending reordering of a list is unique, so a stable insertion sort
computes the same list. -/
def sort_by_exemption_count : List Asset → List Asset
  | [] => []
  | a :: rest => insert_by_exemption_count a (sort_by_exemption_count rest)

mutual

/-- `Solver.recursive_optimal_exemption_search` (solver.py lines 156-199):
branch and bound search for the optimal exemption assignment.  `fuel` bounds
the recursion depth, decreasing by one at every Python-level recursive call;
`.error ()` on exhausted fuel models nontermination (Python RecursionError:
the search does not terminate when an excluded citation with remaining item
claims stays applicable to a positive-value asset). -/
def recursive_optimal_exemption_search :
    Nat → List Asset → Solution → Option Solution → Except Unit Solution
  | 0, _, _, _ => .error ()
  | _ + 1, [], solution, optimal =>
      .ok (match optimal with
           | none => solution
           | some o => python_min solution o)
  | fuel + 1, asset :: rest, solution, optimal =>
      if asset.applicable_exemptions.isEmpty then
        -- No applicable exemptions remain
        let new_solution : Solution :=
          { solution with non_exempt_assets :=
              (solution.non_exempt_assets.insert asset.description asset.dollar_value) }
        match optimal with
        | some o =>
            -- If current solution already has a greater total value of
            -- non-exempt assets, prune this branch
            if new_solution.total_non_exempt_value ≥ o.total_non_exempt_value then
              .ok o
            else
              recursive_optimal_exemption_search fuel rest new_solution optimal
        | none => recursive_optimal_exemption_search fuel rest new_solution none
      else
        match search_branches fuel asset.applicable_exemptions asset rest solution optimal with
        | .error e => .error e
        | .ok new_optimal =>
          -- Check solution where we claim no exemptions for this asset
          match recursive_optimal_exemption_search fuel
              ({ asset with applicable_exemptions := [] } :: rest) solution new_optimal with
          | .error e => .error e
          | .ok new_solution =>
              .ok (match new_optimal with
                   | none => new_solution
                   | some o => python_min new_solution o)
termination_by structural fuel => fuel

/-- The `for citation in asset.applicable_exemptions` loop of
`recursive_optimal_exemption_search` (solver.py lines 169-190), returning the
running `new_optimal`. -/
def search_branches :
    Nat → List String → Asset → List Asset → Solution → Option Solution →
    Except Unit (Option Solution)
  | 0, _, _, _, _, _ => .error ()
  | _ + 1, [], _, _, _, optimal => .ok optimal
  | fuel + 1, citation :: citations, asset, rest, solution, optimal =>
      match solution.allocate_claim_amount citation asset.dollar_value with
      | .error e => .error e
      | .ok (allocated_amount, s1) =>
        match (if allocated_amount > 0
               then s1.claim_exemption citation asset.description allocated_amount
               else .ok s1) with
        | .error e => .error e
        | .ok new_solution =>
          match (if allocated_amount = asset.dollar_value then
                   -- Asset is completely exempt
                   recursive_optimal_exemption_search fuel rest new_solution optimal
                 else
                   -- Asset is not completely protected under current exemption
                   let updated_asset : Asset :=
                     { asset with dollar_value := asset.dollar_value - allocated_amount }
                   match new_solution.item_claim_exists citation with
                   | .error e => .error e
                   | .ok true =>
                       recursive_optimal_exemption_search fuel
                         (updated_asset :: rest) new_solution optimal
                   | .ok false =>
                       recursive_optimal_exemption_search fuel
                         ({ updated_asset with applicable_exemptions :=
                             (updated_asset.applicable_exemptions.filter
                               (fun e => e ≠ citation)) } :: rest)
                         new_solution optimal) with
          | .error e => .error e
          | .ok branch_solution =>
              search_branches fuel citations asset rest solution
                (some (match optimal with
                       | none => branch_solution
                       | some o => python_min branch_solution o))
termination_by structural fuel => fuel

end

/-- The body of one iteration of the `for citation ...` loop (solver.py lines
171-189), as run by `search_branches` with the remaining fuel: allocate
against the citation, record the claim, and recurse into the appropriate
sub-search.  `search_branches (fuel+1) (c :: cs) ...` runs this step at
`fuel` and folds its result into the running optimum. -/
def search_branch_step (fuel : Nat) (citation : String) (asset : Asset)
    (rest : List Asset) (solution : Solution) (optimal : Option Solution) :
    Except Unit Solution :=
  match solution.allocate_claim_amount citation asset.dollar_value with
  | .error e => .error e
  | .ok (allocated_amount, s1) =>
    match (if allocated_amount > 0
           then s1.claim_exemption citation asset.description allocated_amount
           else .ok s1) with
    | .error e => .error e
    | .ok new_solution =>
        if allocated_amount = asset.dollar_value then
          recursive_optimal_exemption_search fuel rest new_solution optimal
        else
          match new_solution.item_claim_exists citation with
          | .error e => .error e
          | .ok true =>
              recursive_optimal_exemption_search fuel
                ({ asset with
                    dollar_value := (asset.dollar_value - allocated_amount) } :: rest)
                new_solution optimal
          | .ok false =>
              recursive_optimal_exemption_search fuel
                ({ asset with
                    dollar_value := (asset.dollar_value - allocated_amount)
                    applicable_exemptions :=
                      (asset.applicable_exemptions.filter
                        (fun e => e ≠ citation)) } :: rest)
                new_solution optimal

/-- `Solver.citations_for_jurisdictions` for a single jurisdiction:
`StatuteSet.exemption_citations`, the citations of its exemptions. -/
def exemption_citations (exs : List Exemption) : List String :=
  exs.map (fun e => e.citation)

/-- The asset preparation of `solve_case_for_jurisdiction` (solver.py lines
147-152): restrict each asset's applicable exemptions to the jurisdiction's
citations, then stable-sort ascending by applicable-exemption count. -/
def prepare_assets (exs : List Exemption) (case_assets : List Asset) : List Asset :=
  sort_by_exemption_count
    (case_assets.map (fun a =>
      { a with applicable_exemptions :=
          (a.applicable_exemptions.filter (fun c => c ∈ exemption_citations exs)) }))

/-- `Solver.solve_case_for_jurisdiction` (solver.py lines 145-153), for the
jurisdiction whose statute set has exemption list `exs`. -/
def solve_case_for_jurisdiction (exs : List Exemption) (case : Case) (fuel : Nat) :
    Except Unit Solution :=
  match init_solution exs case.has_married_couple with
  | .error e => .error e
  | .ok solution =>
      recursive_optimal_exemption_search fuel (prepare_assets exs case.assets) solution none

/-- Modelled from the spec: the example comparator of its optimality property,
"a single-pass greedy assignment over the same assets, e.g. one that always
takes the first applicable exemption per asset".  It runs on the engine's own
allocation primitives: for each asset in order it allocates once against the
asset's first applicable citation, records the claim, and leaves any residual
value non-exempt. -/
def greedy_first_assignment : List Asset → Solution → Except Unit Solution
  | [], s => .ok s
  | a :: rest, s =>
    match a.applicable_exemptions with
    | [] =>
        greedy_first_assignment rest
          { s with non_exempt_assets :=
              (s.non_exempt_assets.insert a.description a.dollar_value) }
    | c :: _ =>
      match s.allocate_claim_amount c a.dollar_value with
      | .error e => .error e
      | .ok (amt, s1) =>
        match (if amt > 0 then s1.claim_exemption c a.description amt else .ok s1) with
        | .error e => .error e
        | .ok s2 =>
            if amt = a.dollar_value then
              greedy_first_assignment rest s2
            else
              greedy_first_assignment rest
                { s2 with non_exempt_assets :=
                    (s2.non_exempt_assets.insert a.description (a.dollar_value - amt)) }

/-- The greedy comparator applied to the same prepared case inputs as
`solve_case_for_jurisdiction`. -/
def greedy_case_assignment (exs : List Exemption) (case : Case) :
    Except Unit Solution :=
  match init_solution exs case.has_married_couple with
  | .error e => .error e
  | .ok solution => greedy_first_assignment (prepare_assets exs case.assets) solution

/-- One complete branch of the search tree of
`recursive_optimal_exemption_search`: `SearchPath assets s r` holds when the
nondeterministic choice structure of the search (pick an applicable citation
for the head asset, or claim nothing for it) can take starting state `s`
through `assets` to the completed solution `r`.  The constructors mirror the
recursion sites of lines 156-199 one-to-one; pruning and incumbent selection
do not appear because a path is a single branch. -/
inductive SearchPath : List Asset → Solution → Solution → Prop where
  | nil (s : Solution) : SearchPath [] s s
  | no_exemptions (a : Asset) (rest : List Asset) (s r : Solution)
      (hrec : SearchPath rest
        { s with non_exempt_assets :=
            (s.non_exempt_assets.insert a.description a.dollar_value) } r) :
      SearchPath (a :: rest) s r
  | claim_full (a : Asset) (rest : List Asset) (s s1 s2 r : Solution)
      (c : String) (amt : Int)
      (hc : c ∈ a.applicable_exemptions)
      (halloc : s.allocate_claim_amount c a.dollar_value = .ok (amt, s1))
      (hclaim : (if amt > 0 then s1.claim_exemption c a.description amt else .ok s1) = .ok s2)
      (hfull : amt = a.dollar_value)
      (hrec : SearchPath rest s2 r) :
      SearchPath (a :: rest) s r
  | claim_partial_item (a : Asset) (rest : List Asset) (s s1 s2 r : Solution)
      (c : String) (amt : Int)
      (hc : c ∈ a.applicable_exemptions)
      (halloc : s.allocate_claim_amount c a.dollar_value = .ok (amt, s1))
      (hclaim : (if amt > 0 then s1.claim_exemption c a.description amt else .ok s1) = .ok s2)
      (hpart : amt ≠ a.dollar_value)
      (hitem : s2.item_claim_exists c = .ok true)
      (hrec : SearchPath
        ({ a with dollar_value := a.dollar_value - amt } :: rest) s2 r) :
      SearchPath (a :: rest) s r
  | claim_partial_drop (a : Asset) (rest : List Asset) (s s1 s2 r : Solution)
      (c : String) (amt : Int)
      (hc : c ∈ a.applicable_exemptions)
      (halloc : s.allocate_claim_amount c a.dollar_value = .ok (amt, s1))
      (hclaim : (if amt > 0 then s1.claim_exemption c a.description amt else .ok s1) = .ok s2)
      (hpart : amt ≠ a.dollar_value)
      (hitem : s2.item_claim_exists c = .ok false)
      (hrec : SearchPath
        ({ a with
            dollar_value := (a.dollar_value - amt)
            applicable_exemptions :=
              (a.applicable_exemptions.filter (fun e => e ≠ c)) } :: rest) s2 r) :
      SearchPath (a :: rest) s r
  | claim_nothing (a : Asset) (rest : List Asset) (s r : Solution)
      (hrec : SearchPath ({ a with applicable_exemptions := [] } :: rest) s r) :
      SearchPath (a :: rest) s r

/-- The data of one citation branch of the search at an asset, matched by a
completed search path: the branch's allocation and claim-recording steps
succeed, and the appropriate sub-branch (full claim, partial claim with an
item claim left, or partial claim dropping the citation) continues as a
search path to `leaf`. -/
def BranchCompletion (c : String) (asset : Asset) (rest : List Asset)
    (s leaf : Solution) : Prop :=
  ∃ amt s1 s2,
    s.allocate_claim_amount c asset.dollar_value = .ok (amt, s1) ∧
    (if amt > 0 then s1.claim_exemption c asset.description amt else .ok s1) =
      .ok s2 ∧
    ((amt = asset.dollar_value ∧ SearchPath rest s2 leaf) ∨
     (amt ≠ asset.dollar_value ∧ s2.item_claim_exists c = .ok true ∧
       SearchPath
         ({ asset with dollar_value := (asset.dollar_value - amt) } :: rest)
         s2 leaf) ∨
     (amt ≠ asset.dollar_value ∧ s2.item_claim_exists c = .ok false ∧
       SearchPath
         ({ asset with
             dollar_value := (asset.dollar_value - amt)
             applicable_exemptions :=
               (asset.applicable_exemptions.filter (fun e => e ≠ c)) } :: rest)
         s2 leaf))

/-- The `while` retry loop of the Validator replay (evaluator.py lines
341-345 and 384-388): while the claim is not fully allocated and item claims
remain, re-invoke allocation for the remainder.  `fuel` bounds the loop;
exhaustion models Python nontermination (possible when the citation is
excluded but still has remaining item claims). -/
def item_claim_retry_loop :
    Nat → Solution → String → Int → Int → Except Unit (Int × Solution)
  | 0, _, _, _, _ => .error ()
  | fuel + 1, s, citation, claim_value, allocated =>
      if claim_value - allocated > 0 then
        match s.item_claim_exists citation with
        | .error e => .error e
        | .ok true =>
            match s.allocate_claim_amount citation (claim_value - allocated) with
            | .error e => .error e
            | .ok (more, s') =>
                item_claim_retry_loop fuel s' citation claim_value (allocated + more)
        | .ok false => .ok (allocated, s)
      else
        .ok (allocated, s)

/-- One deduplicated predicted claim processed against the replay state by
`Evaluator._evaluate_optimal_exemptions` (evaluator.py lines 334-352):
applicability and over-value pre-checks, checkpointed allocation with the
item-claim retry loop, invalid marking with rollback to the checkpoint, and
asset value reduction plus claim recording on success.  Returns (number of
invalid claims counted, replay solution, asset's remaining value); in the
functional model the `deepcopy` checkpoint/restore is returning the original
`s` and asset value unchanged. -/
def process_predicted_claim (fuel : Nat) (s : Solution) (case_asset : Asset)
    (citation : String) (claim_value : Int) : Except Unit (Nat × Solution × Int) :=
  if citation ∉ case_asset.applicable_exemptions ∨ claim_value > case_asset.dollar_value then
    .ok (1, s, case_asset.dollar_value)
  else
    match s.allocate_claim_amount citation claim_value with
    | .error e => .error e
    | .ok (first_amount, s1) =>
      match item_claim_retry_loop fuel s1 citation claim_value first_amount with
      | .error e => .error e
      | .ok (allocated_amount, s2) =>
        -- Over-allocated claims are treated as invalid.
        if claim_value > allocated_amount then
          .ok (1, s, case_asset.dollar_value)
        else if allocated_amount > 0 then
          match s2.claim_exemption citation case_asset.description allocated_amount with
          | .error e => .error e
          | .ok s3 => .ok (0, s3, case_asset.dollar_value - allocated_amount)
        else
          .ok (0, s2, case_asset.dollar_value)

/-- `Evaluator._absolute_relative_error` (evaluator.py lines 148-154), with
the epsilon constant as an explicit third argument (every caller uses the
Python default of `1`).  Python raises ZeroDivisionError when
`target + epsilon = 0` and the early-equality return does not fire; this is
modelled as `.error ()`. -/
def _absolute_relative_error (prediction target epsilon : Rat) : Except Unit Rat :=
  if prediction = target then .ok 0
  else if target + epsilon = 0 then .error ()
  else .ok |prediction / (target + epsilon) - 1|

/-- All dollar figures stored in a state's allocation tables are
nonnegative, as `init_solution` seeds them from statutory dollar limits. -/
def nonneg_state (s : Solution) : Prop :=
  (∀ p ∈ s.unclaimed_exemptions, 0 ≤ p.2.getD 0) ∧
  (∀ p ∈ s.item_claim_amounts, 0 ≤ p.2.getD 0) ∧
  (∀ p ∈ s.exemptions, 0 ≤ p.2.per_item_limit.getD 0)

/-! ### Concrete exemplar data used by the scenario theorems and witnesses -/

/-- Exemption A of the spec's fallback scenario: single limit 1000, fallback
relationship to B bounded by a fallback limit of 500. -/
def exA : Exemption :=
  { citation := "A", single_limit := some 1000, married_limit := some 2000,
    fallback_relationship := some "B", single_fallback_limit := some 500,
    married_fallback_limit := some 500 }

/-- Exemption B of the spec's fallback scenario: single limit 1500. -/
def exB : Exemption :=
  { citation := "B", single_limit := some 1500, married_limit := some 3000 }

/-- The fresh single-debtor state `init_solution [exA, exB]` produces. -/
def fallback_state : Solution :=
  { exemptions := [("A", exA), ("B", exB)]
    unclaimed_exemptions := [("A", some 1000), ("B", some 1500)]
    claimed_exemptions := []
    non_exempt_assets := []
    remaining_item_claim_counts := [("A", none), ("B", none)]
    item_claim_amounts := [("A", none), ("B", none)]
    remaining_fallback_relationships := [("A", (some "B", some 500)), ("B", (none, none))]
    excluded_exemptions := [] }

/-- `fallback_state` after `allocate_claim_amount("A", 1200)`: A is drained,
B's balance is debited by the 200 drawn through the fallback, and the
remaining fallback budget is 300. -/
def fallback_state_after : Solution :=
  { fallback_state with
      unclaimed_exemptions := [("A", some 0), ("B", some 1300)]
      remaining_fallback_relationships := [("A", (some "B", some 300)), ("B", (none, none))] }

/-- An exemption whose claim triggers a mutual exclusion of B. -/
def exE : Exemption :=
  { citation := "E", single_limit := some 100, married_limit := some 200,
    mutual_exclusion := some "B" }

/-- A fresh state over `[exE, exB]`, as `init_solution` seeds it. -/
def exclusion_state : Solution :=
  { exemptions := [("E", exE), ("B", exB)]
    unclaimed_exemptions := [("E", some 100), ("B", some 1500)]
    claimed_exemptions := []
    non_exempt_assets := []
    remaining_item_claim_counts := [("E", none), ("B", none)]
    item_claim_amounts := [("E", none), ("B", none)]
    remaining_fallback_relationships := [("E", (none, none)), ("B", (none, none))]
    excluded_exemptions := [] }

/-- An item-limited exemption: limit 2000 over 2 item claims of 1000 each. -/
def exI : Exemption :=
  { citation := "I", single_limit := some 2000, married_limit := some 2000,
    single_item_claim_count := some 2, married_item_claim_count := some 2 }

/-- A state where the item-limited citation I has 2 slots left but an already
exhausted balance and no fallback source. -/
def drained_item_state : Solution :=
  { exemptions := [("I", exI)]
    unclaimed_exemptions := [("I", some 0)]
    claimed_exemptions := []
    non_exempt_assets := []
    remaining_item_claim_counts := [("I", some 2)]
    item_claim_amounts := [("I", some 1000)]
    remaining_fallback_relationships := [("I", (none, none))]
    excluded_exemptions := [] }

/-- `exclusion_state` after `claim_exemption("E", "car", 10)`. -/
def exclusion_state1 : Solution :=
  { exclusion_state with
      claimed_exemptions := [("car", [("E", 10)])]
      excluded_exemptions := ["B"] }

/-- `exclusion_state1` after a second `claim_exemption("E", "boat", 10)`:
the mutual exclusion target "B" is appended again. -/
def exclusion_state2 : Solution :=
  { exclusion_state with
      claimed_exemptions := [("car", [("E", 10)]), ("boat", [("E", 10)])]
      excluded_exemptions := ["B", "B"] }

/-- A one-exemption state with limit 100, used to replay an over-claim. -/
def replay_state : Solution :=
  { exemptions := [("L", { citation := "L", single_limit := some 100, married_limit := some 100 })]
    unclaimed_exemptions := [("L", some 100)]
    claimed_exemptions := []
    non_exempt_assets := []
    remaining_item_claim_counts := [("L", none)]
    item_claim_amounts := [("L", none)]
    remaining_fallback_relationships := [("L", (none, none))]
    excluded_exemptions := [] }

/-- A case asset worth 250 to which exemption L applies. -/
def carAsset : Asset :=
  { description := "car", dollar_value := 250, applicable_exemptions := ["L"] }

/-- `replay_state` after allocating 100 of a 200 claim under L. -/
def replay_state_mid : Solution :=
  { replay_state with unclaimed_exemptions := [("L", some 0)] }

/-- An asset with no applicable exemptions. -/
def cashAsset : Asset :=
  { description := "cash", dollar_value := 300, applicable_exemptions := [] }

/-- A single-debtor case holding only `cashAsset`. -/
def cash_case : Case := { assets := [cashAsset], has_married_couple := false }

/-- The solution the search returns on `cash_case` with an empty statute set:
the full 300 is non-exempt. -/
def cash_case_solution : Solution :=
  { exemptions := []
    unclaimed_exemptions := []
    claimed_exemptions := []
    non_exempt_assets := [("cash", 300)]
    remaining_item_claim_counts := []
    item_claim_amounts := []
    remaining_fallback_relationships := []
    excluded_exemptions := [] }

/-- A single-debtor case holding a car worth 1200 to which exemption A
applies. -/
def car_case : Case :=
  { assets := [{ description := "car", dollar_value := 1200,
                 applicable_exemptions := ["A"] }],
    has_married_couple := false }

/-- The solution the search returns on `car_case` over `[exA, exB]`: the car
is fully claimed under A (1000 directly and 200 through the fallback to B),
leaving nothing non-exempt. -/
def car_case_solution : Solution :=
  { exemptions := [("A", exA), ("B", exB)]
    unclaimed_exemptions := [("A", some 0), ("B", some 1300)]
    claimed_exemptions := [("car", [("A", 1200)])]
    non_exempt_assets := []
    remaining_item_claim_counts := [("A", none), ("B", none)]
    item_claim_amounts := [("A", none), ("B", none)]
    remaining_fallback_relationships := [("A", (some "B", some 300)), ("B", (none, none))]
    excluded_exemptions := [] }

/-! ### Basic dictionary lemmas -/

theorem Dict.find?_insert {α : Type} (d : Dict α) (k k' : String) (v : α) :
    (d.insert k v).find? k' = if k = k' then some v else d.find? k' := by
  induction d with
  | nil =>
      by_cases h : k = k'
      · subst h; simp [Dict.insert, Dict.find?]
      · simp [Dict.insert, Dict.find?, h]
  | cons p rest ih =>
      obtain ⟨k₀, v₀⟩ := p
      by_cases h₀ : k₀ = k
      · subst h₀
        by_cases h₁ : k₀ = k'
        · subst h₁; simp [Dict.insert, Dict.find?]
        · simp [Dict.insert, Dict.find?, h₁]
      · by_cases h₁ : k₀ = k'
        · subst h₁
          have hkk : ¬ k = k₀ := fun hc => h₀ hc.symm
          simp [Dict.insert, Dict.find?, h₀, hkk]
        · simp [Dict.insert, Dict.find?, h₀, h₁, ih]

theorem Dict.isSome_find?_insert {α : Type} (d : Dict α) (k k' : String) (v : α)
    (h : (d.find? k').isSome) : ((d.insert k v).find? k').isSome := by
  rw [Dict.find?_insert]
  split
  · rfl
  · exact h

namespace Solution

/-! ### Lemmas about `_process_claim` -/

/-- `_process_claim` succeeds exactly when the citation has a balance entry. -/
theorem _process_claim_is_ok {s : Solution} {c : String} {amt : Int}
    (h : (s.unclaimed_exemptions.find? c).isSome) :
    ∃ a s', s._process_claim c amt = .ok (a, s') := by
  unfold _process_claim
  cases hf : s.unclaimed_exemptions.find? c with
  | none => rw [hf] at h; simp at h
  | some o =>
      cases o with
      | none => exact ⟨amt, s, rfl⟩
      | some bal =>
          by_cases h1 : bal ≥ amt
          · exact ⟨_, _, by dsimp only; rw [if_pos h1]⟩
          · by_cases h2 : bal > 0
            · exact ⟨_, _, by dsimp only; rw [if_neg h1, if_pos h2]⟩
            · exact ⟨_, _, by dsimp only; rw [if_neg h1, if_neg h2]⟩

/-- An unlimited exemption grants the full request without state change. -/
theorem _process_claim_unlimited {s : Solution} {c : String} {amt : Int}
    (h : s.unclaimed_exemptions.find? c = some none) :
    s._process_claim c amt = .ok (amt, s) := by
  unfold _process_claim; rw [h]

/-- A limited exemption grants exactly `min balance request`. -/
theorem _process_claim_limited_amount {s : Solution} {c : String} {amt bal a : Int}
    {s' : Solution} (hbal : s.unclaimed_exemptions.find? c = some (some bal))
    (h : s._process_claim c amt = .ok (a, s')) : a = min bal amt := by
  simp only [_process_claim, hbal] at h
  split_ifs at h with h1 h2 <;> simp only [Except.ok.injEq, Prod.mk.injEq] at h
  · rw [← h.1, min_eq_right h1]
  · rw [← h.1, min_eq_left (le_of_lt (lt_of_not_ge h1))]
  · rw [← h.1, min_eq_left (le_of_lt (lt_of_not_ge h1))]

/-- `_process_claim` never grants more than requested. -/
theorem _process_claim_le {s : Solution} {c : String} {amt a : Int} {s' : Solution}
    (h : s._process_claim c amt = .ok (a, s')) : a ≤ amt := by
  unfold _process_claim at h
  split at h
  · exact absurd h (by simp)
  · simp only [Except.ok.injEq, Prod.mk.injEq] at h
    exact h.1 ▸ le_refl _
  · split at h
    · simp only [Except.ok.injEq, Prod.mk.injEq] at h
      exact h.1 ▸ le_refl _
    · split at h <;>
      · simp only [Except.ok.injEq, Prod.mk.injEq] at h
        rw [← h.1]
        linarith [lt_of_not_ge (show ¬ _ ≥ amt by assumption)]

/-- `_process_claim` only ever touches the `unclaimed_exemptions` table. -/
theorem _process_claim_frame {s : Solution} {c : String} {amt a : Int} {s' : Solution}
    (h : s._process_claim c amt = .ok (a, s')) :
    s'.exemptions = s.exemptions ∧
    s'.claimed_exemptions = s.claimed_exemptions ∧
    s'.non_exempt_assets = s.non_exempt_assets ∧
    s'.remaining_item_claim_counts = s.remaining_item_claim_counts ∧
    s'.item_claim_amounts = s.item_claim_amounts ∧
    s'.remaining_fallback_relationships = s.remaining_fallback_relationships ∧
    s'.excluded_exemptions = s.excluded_exemptions := by
  unfold _process_claim at h
  split at h
  · exact absurd h (by simp)
  · simp only [Except.ok.injEq, Prod.mk.injEq] at h
    rw [← h.2]
    exact ⟨rfl, rfl, rfl, rfl, rfl, rfl, rfl⟩
  · split at h
    · simp only [Except.ok.injEq, Prod.mk.injEq] at h
      rw [← h.2]
      exact ⟨rfl, rfl, rfl, rfl, rfl, rfl, rfl⟩
    · split at h <;>
      · simp only [Except.ok.injEq, Prod.mk.injEq] at h
        rw [← h.2]
        exact ⟨rfl, rfl, rfl, rfl, rfl, rfl, rfl⟩

/-- `_process_claim` keeps every balance key present. -/
theorem _process_claim_isSome {s : Solution} {c : String} {amt a : Int} {s' : Solution}
    (h : s._process_claim c amt = .ok (a, s')) (k : String)
    (hk : (s.unclaimed_exemptions.find? k).isSome) :
    (s'.unclaimed_exemptions.find? k).isSome := by
  unfold _process_claim at h
  split at h
  · exact absurd h (by simp)
  · simp only [Except.ok.injEq, Prod.mk.injEq] at h
    rw [← h.2]; exact hk
  · split at h
    · simp only [Except.ok.injEq, Prod.mk.injEq] at h
      rw [← h.2]
      exact Dict.isSome_find?_insert _ _ _ _ hk
    · split at h <;> simp only [Except.ok.injEq, Prod.mk.injEq] at h
      · rw [← h.2]
        exact Dict.isSome_find?_insert _ _ _ _ hk
      · rw [← h.2]; exact hk


/-! ### Case analysis of the allocation primitives -/

theorem cap_item_le (amt : Int) (ica : Option Int) : cap_item amt ica ≤ amt := by
  cases ica <;> simp [cap_item, min_le_right]

theorem cap_per_item_le (x : Int) (pil : Option Int) : cap_per_item x pil ≤ x := by
  cases pil <;> simp [cap_per_item, min_le_right]

/-- Full case analysis of a successful `allocate_capped`. -/
theorem allocate_capped_cases {s : Solution} {c : String} {amt : Int} {ica : Option Int}
    {a : Int} {s' : Solution} (h : s.allocate_capped c amt ica = .ok (a, s')) :
    ∃ e, s.exemptions.find? c = some e ∧
      ∃ a1 s1, s._process_claim c (cap_per_item (cap_item amt ica) e.per_item_limit) =
          .ok (a1, s1) ∧
        ((¬ a1 < cap_per_item (cap_item amt ica) e.per_item_limit ∧ a = a1 ∧ s' = s1) ∨
         (a1 < cap_per_item (cap_item amt ica) e.per_item_limit ∧
          ∃ fco b, s1.remaining_fallback_relationships.find? c = some (fco, b) ∧
            ((fco = none ∧ a = a1 ∧ s' = s1) ∨
             (∃ fc bal, fco = some fc ∧ b = some bal ∧
              ∃ fb s2, s1._process_claim fc
                  (min bal (cap_per_item (cap_item amt ica) e.per_item_limit - a1)) =
                  .ok (fb, s2) ∧
                ((fb > 0 ∧ a = a1 + fb ∧
                  s' = { s2 with remaining_fallback_relationships :=
                    (s2.remaining_fallback_relationships.insert c
                      (some fc, some (bal - fb))) }) ∨
                 (¬ fb > 0 ∧ a = a1 ∧ s' = s2)))))) := by
  simp only [allocate_capped] at h
  split at h
  · simp at h
  next e hex =>
    refine ⟨e, hex, ?_⟩
    split at h
    · simp at h
    next a1 s1 hp =>
      refine ⟨a1, s1, hp, ?_⟩
      split at h
      next hlt =>
        refine Or.inr ⟨hlt, ?_⟩
        split at h
        · simp at h
        next fco b hfb =>
          refine ⟨fco, b, hfb, ?_⟩
          split at h
          next =>
            simp only [Except.ok.injEq, Prod.mk.injEq] at h
            exact Or.inl ⟨rfl, h.1.symm, h.2.symm⟩
          next fc =>
            split at h
            · simp at h
            next bal =>
              split at h
              · simp at h
              next fb s2 hp2 =>
                refine Or.inr ⟨fc, bal, rfl, rfl, fb, s2, hp2, ?_⟩
                split at h <;>
                  simp only [Except.ok.injEq, Prod.mk.injEq] at h
                next hpos => exact Or.inl ⟨hpos, h.1.symm, h.2.symm⟩
                next hpos => exact Or.inr ⟨hpos, h.1.symm, h.2.symm⟩
      next hlt =>
        simp only [Except.ok.injEq, Prod.mk.injEq] at h
        exact Or.inl ⟨hlt, h.1.symm, h.2.symm⟩

/-- Full case analysis of a successful `allocate_claim_amount`. -/
theorem allocate_claim_amount_cases {s : Solution} {c : String} {amt a : Int}
    {s' : Solution} (h : s.allocate_claim_amount c amt = .ok (a, s')) :
    (c ∈ s.excluded_exemptions ∧ a = 0 ∧ s' = s) ∨
    (c ∉ s.excluded_exemptions ∧
      ∃ cnt, s.remaining_item_claim_counts.find? c = some cnt ∧
        ((cnt = none ∧ s.allocate_capped c amt none = .ok (a, s')) ∨
         (∃ n, cnt = some n ∧ n < 1 ∧ a = 0 ∧ s' = s) ∨
         (∃ n, cnt = some n ∧ ¬ n < 1 ∧
          ∃ ica, s.item_claim_amounts.find? c = some ica ∧
            Solution.allocate_capped
              { s with remaining_item_claim_counts :=
                  (s.remaining_item_claim_counts.insert c (some (n - 1))) }
              c amt ica = .ok (a, s')))) := by
  simp only [allocate_claim_amount] at h
  split at h
  next hexcl =>
    simp only [Except.ok.injEq, Prod.mk.injEq] at h
    exact Or.inl ⟨hexcl, h.1.symm, h.2.symm⟩
  next hexcl =>
    refine Or.inr ⟨hexcl, ?_⟩
    split at h
    · simp at h
    next cnt hc =>
      refine ⟨cnt, hc, ?_⟩
      split at h
      next => exact Or.inl ⟨rfl, h⟩
      next n =>
        split at h
        next hn =>
          simp only [Except.ok.injEq, Prod.mk.injEq] at h
          exact Or.inr (Or.inl ⟨n, rfl, hn, h.1.symm, h.2.symm⟩)
        next hn =>
          split at h
          · simp at h
          next ica hica =>
            exact Or.inr (Or.inr ⟨n, rfl, hn, ica, hica, h⟩)


/-! ### Frames and bounds for the allocation primitives -/

/-- `allocate_capped` only ever touches the balance and fallback tables. -/
theorem allocate_capped_frame {s : Solution} {c : String} {amt : Int} {ica : Option Int}
    {a : Int} {s' : Solution} (h : s.allocate_capped c amt ica = .ok (a, s')) :
    s'.exemptions = s.exemptions ∧
    s'.claimed_exemptions = s.claimed_exemptions ∧
    s'.non_exempt_assets = s.non_exempt_assets ∧
    s'.remaining_item_claim_counts = s.remaining_item_claim_counts ∧
    s'.item_claim_amounts = s.item_claim_amounts ∧
    s'.excluded_exemptions = s.excluded_exemptions := by
  obtain ⟨e, hex, a1, s1, hp, hrest⟩ := allocate_capped_cases h
  obtain ⟨f1, f2, f3, f4, f5, f6, f7⟩ := _process_claim_frame hp
  rcases hrest with ⟨-, -, rfl⟩ | ⟨-, fco, b, hfb, hrest⟩
  · exact ⟨f1, f2, f3, f4, f5, f7⟩
  · rcases hrest with ⟨-, -, rfl⟩ | ⟨fc, bal, rfl, rfl, fb, s2, hp2, hrest⟩
    · exact ⟨f1, f2, f3, f4, f5, f7⟩
    · obtain ⟨g1, g2, g3, g4, g5, g6, g7⟩ := _process_claim_frame hp2
      rcases hrest with ⟨-, -, rfl⟩ | ⟨-, -, rfl⟩
      · exact ⟨g1.trans f1, g2.trans f2, g3.trans f3, g4.trans f4, g5.trans f5,
          g7.trans f7⟩
      · exact ⟨g1.trans f1, g2.trans f2, g3.trans f3, g4.trans f4, g5.trans f5,
          g7.trans f7⟩

/-- `allocate_claim_amount` never touches the exemption definitions, the
recorded claims, the non-exempt assets, the per-item amounts, or the excluded
list. -/
theorem allocate_claim_amount_frame {s : Solution} {c : String} {amt a : Int}
    {s' : Solution} (h : s.allocate_claim_amount c amt = .ok (a, s')) :
    s'.exemptions = s.exemptions ∧
    s'.claimed_exemptions = s.claimed_exemptions ∧
    s'.non_exempt_assets = s.non_exempt_assets ∧
    s'.item_claim_amounts = s.item_claim_amounts ∧
    s'.excluded_exemptions = s.excluded_exemptions := by
  rcases allocate_claim_amount_cases h with ⟨-, -, rfl⟩ | ⟨-, cnt, hc, hrest⟩
  · exact ⟨rfl, rfl, rfl, rfl, rfl⟩
  · rcases hrest with ⟨-, hcap⟩ | ⟨n, -, -, -, rfl⟩ | ⟨n, -, -, ica, hica, hcap⟩
    · obtain ⟨f1, f2, f3, f4, f5, f6⟩ := allocate_capped_frame hcap
      exact ⟨f1, f2, f3, f5, f6⟩
    · exact ⟨rfl, rfl, rfl, rfl, rfl⟩
    · obtain ⟨f1, f2, f3, f4, f5, f6⟩ := allocate_capped_frame hcap
      exact ⟨f1, f2, f3, f5, f6⟩

/-- `allocate_capped` never exceeds the requested amount. -/
theorem allocate_capped_le {s : Solution} {c : String} {amt : Int} {ica : Option Int}
    {a : Int} {s' : Solution} (h : s.allocate_capped c amt ica = .ok (a, s')) :
    a ≤ amt := by
  obtain ⟨e, hex, a1, s1, hp, hrest⟩ := allocate_capped_cases h
  have hcap : cap_per_item (cap_item amt ica) e.per_item_limit ≤ amt :=
    le_trans (cap_per_item_le _ _) (cap_item_le _ _)
  have h1 : a1 ≤ cap_per_item (cap_item amt ica) e.per_item_limit :=
    _process_claim_le hp
  rcases hrest with ⟨-, rfl, -⟩ | ⟨-, fco, b, hfb, hrest⟩
  · linarith
  · rcases hrest with ⟨-, rfl, -⟩ | ⟨fc, bal, rfl, rfl, fb, s2, hp2, hrest⟩
    · linarith
    · have hfble :
          fb ≤ min bal (cap_per_item (cap_item amt ica) e.per_item_limit - a1) :=
        _process_claim_le hp2
      have : fb ≤ cap_per_item (cap_item amt ica) e.per_item_limit - a1 :=
        le_trans hfble (min_le_right _ _)
      rcases hrest with ⟨-, rfl, -⟩ | ⟨-, rfl, -⟩
      · linarith
      · linarith

/-- **Allocation never exceeds the request** (for nonnegative requests). -/
theorem allocate_claim_amount_le {s : Solution} {c : String} {amt a : Int}
    {s' : Solution} (hamt : 0 ≤ amt)
    (h : s.allocate_claim_amount c amt = .ok (a, s')) : a ≤ amt := by
  rcases allocate_claim_amount_cases h with ⟨-, rfl, -⟩ | ⟨-, cnt, hc, hrest⟩
  · exact hamt
  · rcases hrest with ⟨-, hcap⟩ | ⟨n, -, -, rfl, -⟩ | ⟨n, -, -, ica, hica, hcap⟩
    · exact allocate_capped_le hcap
    · exact hamt
    · exact allocate_capped_le hcap

/-- For a limited balance, `allocate_capped` is bounded by that balance plus
the fallback budget. -/
theorem allocate_capped_bounded {s : Solution} {c : String} {amt : Int}
    {ica : Option Int} {a : Int} {s' : Solution} {bal : Int}
    (hbal : s.unclaimed_exemptions.find? c = some (some bal))
    (hfb0 : 0 ≤ fallback_budget s c)
    (h : s.allocate_capped c amt ica = .ok (a, s')) :
    a ≤ bal + fallback_budget s c := by
  obtain ⟨e, hex, a1, s1, hp, hrest⟩ := allocate_capped_cases h
  have ha1 : a1 = min bal (cap_per_item (cap_item amt ica) e.per_item_limit) :=
    _process_claim_limited_amount hbal hp
  have ha1b : a1 ≤ bal := ha1 ▸ min_le_left _ _
  rcases hrest with ⟨-, rfl, -⟩ | ⟨-, fco, b, hfb, hrest⟩
  · linarith
  · rcases hrest with ⟨-, rfl, -⟩ | ⟨fc, bal2, rfl, rfl, fb, s2, hp2, hrest⟩
    · linarith
    · have hfbs : s.remaining_fallback_relationships.find? c =
          some (some fc, some bal2) := by
        rw [← (_process_claim_frame hp).2.2.2.2.2.1]
        exact hfb
      have hbudget : fallback_budget s c = bal2 := by
        unfold fallback_budget
        rw [hfbs]
      have hfble :
          fb ≤ min bal2 (cap_per_item (cap_item amt ica) e.per_item_limit - a1) :=
        _process_claim_le hp2
      have hfb2 : fb ≤ bal2 := le_trans hfble (min_le_left _ _)
      have hb20 : 0 ≤ bal2 := hbudget ▸ hfb0
      rcases hrest with ⟨-, rfl, -⟩ | ⟨-, rfl, -⟩
      · rw [hbudget]
        linarith
      · rw [hbudget]
        linarith


/-! ### Success of allocation under key coverage -/

theorem allocate_capped_is_ok {s : Solution} {c : String} (amt : Int) (ica : Option Int)
    (hex : (s.exemptions.find? c).isSome = true)
    (hun : (s.unclaimed_exemptions.find? c).isSome = true)
    (hfb : fallback_keys_ok s c = true) :
    is_ok (s.allocate_capped c amt ica) = true := by
  simp only [allocate_capped]
  cases hexq : s.exemptions.find? c with
  | none => rw [hexq] at hex; simp at hex
  | some e =>
    dsimp only
    obtain ⟨a1, s1, hp⟩ :=
      @_process_claim_is_ok s c (cap_per_item (cap_item amt ica) e.per_item_limit) hun
    rw [hp]
    dsimp only
    by_cases hlt : a1 < cap_per_item (cap_item amt ica) e.per_item_limit
    · rw [if_pos hlt]
      have hfbeq : s1.remaining_fallback_relationships = s.remaining_fallback_relationships :=
        (_process_claim_frame hp).2.2.2.2.2.1
      rw [hfbeq]
      unfold fallback_keys_ok at hfb
      cases hff : s.remaining_fallback_relationships.find? c with
      | none => rw [hff] at hfb; simp at hfb
      | some p =>
          obtain ⟨fco, b⟩ := p
          cases fco with
          | none => rfl
          | some fc =>
              rw [hff] at hfb
              simp only [Bool.and_eq_true, Option.isSome_iff_exists] at hfb
              obtain ⟨⟨bal, hb⟩, hfcun⟩ := hfb
              subst hb
              dsimp only
              obtain ⟨fb, s2, hp2⟩ :=
                @_process_claim_is_ok s1 fc
                  (min bal (cap_per_item (cap_item amt ica) e.per_item_limit - a1))
                  (_process_claim_isSome hp fc
                    (by obtain ⟨w, hw⟩ := hfcun; rw [hw]; rfl))
              rw [hp2]
              dsimp only
              by_cases hfbpos : fb > 0
              · rw [if_pos hfbpos]; rfl
              · rw [if_neg hfbpos]; rfl
    · rw [if_neg hlt]; rfl

/-! ### Claim C1 -/

/-- **C1**: for every solution state whose balance for the citation is
limited (`some bal`, nonnegative, as `init_solution` seeds from nonnegative
statutory limits) and whose fallback budget is nonnegative, a successful
`allocate_claim_amount` never returns more than that remaining balance plus
the fallback budget currently available to the citation, and it returns
exactly 0 whenever the citation is in `excluded_exemptions`. -/
theorem allocate_claim_amount_never_exceeds (s : Solution) (c : String)
    (amt bal a : Int) (s' : Solution)
    (h : s.allocate_claim_amount c amt = .ok (a, s'))
    (hbal : s.unclaimed_exemptions.find? c = some (some bal))
    (hbal0 : 0 ≤ bal) (hfb0 : 0 ≤ fallback_budget s c) :
    a ≤ bal + fallback_budget s c ∧ (c ∈ s.excluded_exemptions → a = 0) := by
  rcases allocate_claim_amount_cases h with ⟨hmem, rfl, -⟩ | ⟨hexcl, cnt, hc, hrest⟩
  · exact ⟨by linarith, fun _ => rfl⟩
  · refine ⟨?_, fun hmem => absurd hmem hexcl⟩
    rcases hrest with ⟨-, hcap⟩ | ⟨n, -, -, rfl, -⟩ | ⟨n, -, -, ica, hica, hcap⟩
    · exact allocate_capped_bounded hbal hfb0 hcap
    · linarith
    · exact @allocate_capped_bounded
        { s with remaining_item_claim_counts :=
            (s.remaining_item_claim_counts.insert c (some (n - 1))) }
        c amt ica a s' bal hbal hfb0 hcap

/-- Witness for C1: the fallback scenario state at citation A. -/
theorem allocate_claim_amount_never_exceeds_witness :
    (1200 : Int) ≤ 1000 + fallback_budget fallback_state "A" ∧
    ("A" ∈ fallback_state.excluded_exemptions → (1200 : Int) = 0) :=
  allocate_claim_amount_never_exceeds fallback_state "A" 1200 1000 1200
    fallback_state_after (by decide) (by decide) (by decide) (by decide)

/-! ### Claim C4 -/

/-- **C4 counterexample**: `allocate_claim_amount` does raise (a Python
`KeyError` on `remaining_item_claim_counts[citation]`, here `.error ()`) when
called with a citation absent from the state's tables, even on a state
freshly created by `init_solution`. -/
theorem allocate_missing_citation_raises :
    init_solution [exA, exB] false = .ok fallback_state ∧
    fallback_state.allocate_claim_amount "X" 5 = .error () := by decide

/-- **C4 (amended)**: `allocate_claim_amount` never raises when the citation
is a key of every table it consults and its fallback source, if set, has a
set fallback limit and its own balance entry (`allocate_keys_ok`) — the
situation for every citation of the tables of an `init_solution` state whose
fallback sources are themselves listed exemptions. -/
theorem allocate_claim_amount_never_raises (s : Solution) (c : String) (amt : Int)
    (h : allocate_keys_ok s c = true) :
    is_ok (s.allocate_claim_amount c amt) = true := by
  simp only [allocate_keys_ok, Bool.and_eq_true] at h
  obtain ⟨⟨⟨⟨h1, h2⟩, h3⟩, h4⟩, h5⟩ := h
  simp only [allocate_claim_amount]
  split
  · rfl
  · split
    next heq => rw [heq] at h1; simp at h1
    next cnt heq =>
      split
      next => exact allocate_capped_is_ok amt none h3 h4 h5
      next n =>
        split
        · rfl
        · split
          next hic =>
            have hic' : s.item_claim_amounts.find? c = none := hic
            rw [hic'] at h2
            simp at h2
          next ica hic => exact allocate_capped_is_ok amt ica h3 h4 h5

/-- Witness for the amended C4. -/
theorem allocate_claim_amount_never_raises_witness :
    is_ok (fallback_state.allocate_claim_amount "A" 99999) = true :=
  allocate_claim_amount_never_raises fallback_state "A" 99999 (by decide)

/-! ### Claim C5 -/

/-- **C5**: in the fresh state produced by `init_solution` over exemptions A
(limit 1000, fallback to B capped at 500) and B (limit 1500),
`allocate_claim_amount("A", 1200)` returns 1200 — 1000 drawn from A's
balance plus 200 through the fallback — leaving a fallback budget of 300 for
A, B's balance at 1300, and A's balance at 0. -/
theorem fallback_scenario :
    init_solution [exA, exB] false = .ok fallback_state ∧
    fallback_state.allocate_claim_amount "A" 1200 = .ok (1200, fallback_state_after) ∧
    fallback_state_after.remaining_fallback_relationships.find? "A"
      = some (some "B", some 300) ∧
    fallback_state_after.unclaimed_exemptions.find? "B" = some (some 1300) ∧
    fallback_state_after.unclaimed_exemptions.find? "A" = some (some 0) := by decide


/-! ### Claim C6 -/

/-- Under a nonempty mutual-exclusion target, `trigger_mutual_exclusion`
appends the target to the excluded list and changes nothing else. -/
theorem trigger_mutual_exclusion_eq {s : Solution} {e : Exemption} {B : String}
    (hme : e.mutual_exclusion = some B) (hB : B ≠ "") :
    trigger_mutual_exclusion s e =
      { s with excluded_exemptions := (s.excluded_exemptions ++ [B]) } := by
  simp [trigger_mutual_exclusion, hme, hB]

/-- A successful `claim_exemption`, explicitly. -/
theorem claim_exemption_ok {s : Solution} {c d : String} {amt : Int} {e : Exemption}
    (hex : s.exemptions.find? c = some e) :
    s.claim_exemption c d amt =
      .ok { trigger_mutual_exclusion s e with
              claimed_exemptions :=
                (((trigger_mutual_exclusion s e).claimed_exemptions).insert d
                  (mergeClaim
                    (((trigger_mutual_exclusion s e).claimed_exemptions.find? d).getD [])
                    c amt)) } := by
  simp only [claim_exemption, hex]

/-- **C6 counterexample**: the Python-level `excluded_exemptions` list is NOT
left unchanged by a second `claim_exemption` of the same exemption — the
mutual-exclusion target "B" is appended again (`list.append`, not a set
insertion), so the list after two claims differs from the list after one. -/
theorem mutual_exclusion_duplicate_append :
    exclusion_state.claim_exemption "E" "car" 10 = .ok exclusion_state1 ∧
    exclusion_state1.claim_exemption "E" "boat" 10 = .ok exclusion_state2 ∧
    exclusion_state1.excluded_exemptions = ["B"] ∧
    exclusion_state2.excluded_exemptions = ["B", "B"] ∧
    exclusion_state2.excluded_exemptions ≠ exclusion_state1.excluded_exemptions := by
  decide

/-- **C6 (amended)**: after `claim_exemption` of an exemption whose
`mutual_exclusion` is `B` (a nonempty citation), `B` is in
`excluded_exemptions`, so any subsequent `allocate_claim_amount` for `B` on
that state returns 0 and leaves the state unchanged; and a second
`claim_exemption` of the same exemption, while appending a duplicate `B`
entry to the Python list, leaves the *membership* of `excluded_exemptions`
(hence all subsequent allocation behaviour) unchanged. -/
theorem mutual_exclusion_disables_allocation (s s₁ s₂ : Solution)
    (c d d' B x : String) (amt amt' v : Int) (e : Exemption)
    (hex : s.exemptions.find? c = some e)
    (hme : e.mutual_exclusion = some B) (hB : B ≠ "")
    (h1 : s.claim_exemption c d amt = .ok s₁)
    (h2 : s₁.claim_exemption c d' amt' = .ok s₂) :
    B ∈ s₁.excluded_exemptions ∧
    s₁.allocate_claim_amount B v = .ok (0, s₁) ∧
    (x ∈ s₂.excluded_exemptions ↔ x ∈ s₁.excluded_exemptions) := by
  rw [claim_exemption_ok hex] at h1
  rw [trigger_mutual_exclusion_eq hme hB] at h1
  simp only [Except.ok.injEq] at h1
  have hexc1 : s₁.excluded_exemptions = s.excluded_exemptions ++ [B] := by
    rw [← h1]
  have hmem : B ∈ s₁.excluded_exemptions := by
    rw [hexc1]
    exact List.mem_append_right _ (List.mem_singleton_self B)
  refine ⟨hmem, ?_, ?_⟩
  · unfold allocate_claim_amount
    rw [if_pos hmem]
  · have hex1 : s₁.exemptions.find? c = some e := by
      rw [← h1]
      exact hex
    rw [claim_exemption_ok hex1] at h2
    rw [trigger_mutual_exclusion_eq hme hB] at h2
    simp only [Except.ok.injEq] at h2
    have hexc2 : s₂.excluded_exemptions = s₁.excluded_exemptions ++ [B] := by
      rw [← h2]
    rw [hexc2]
    constructor
    · intro hx
      rcases List.mem_append.mp hx with hx | hx
      · exact hx
      · rw [List.mem_singleton] at hx
        rw [hx]
        exact hmem
    · intro hx
      exact List.mem_append_left _ hx

/-- Witness for the amended C6, on the concrete exclusion scenario. -/
theorem mutual_exclusion_disables_allocation_witness :
    "B" ∈ exclusion_state1.excluded_exemptions ∧
    exclusion_state1.allocate_claim_amount "B" 700 = .ok (0, exclusion_state1) ∧
    ("B" ∈ exclusion_state2.excluded_exemptions ↔
      "B" ∈ exclusion_state1.excluded_exemptions) :=
  mutual_exclusion_disables_allocation exclusion_state exclusion_state1 exclusion_state2
    "E" "car" "boat" "B" "B" 10 10 700 exE (by decide) (by decide) (by decide)
    (by decide) (by decide)

/-! ### Claim C9 -/

/-- **C9**: for an item-limited citation with at least one remaining slot, a
positive per-item amount, an exhausted (zero) balance and no fallback source,
a positive allocation request returns 0 yet still decrements
`remaining_item_claim_counts` by one; consequently `item_claim_exists` stays
true exactly while slots remain, so zero-yield calls burn slots. -/
theorem zero_allocation_consumes_item_slot (s : Solution) (c : String) (n : Int)
    (v amt : Int) (e : Exemption) (b : Option Int)
    (hnotex : c ∉ s.excluded_exemptions)
    (hcnt : s.remaining_item_claim_counts.find? c = some (some n)) (hn : 1 ≤ n)
    (hica : s.item_claim_amounts.find? c = some (some v)) (hv : 0 < v)
    (hex : s.exemptions.find? c = some e) (hpil : e.per_item_limit = none)
    (hun : s.unclaimed_exemptions.find? c = some (some 0))
    (hfb : s.remaining_fallback_relationships.find? c = some (none, b))
    (hamt : 0 < amt) :
    s.allocate_claim_amount c amt =
      .ok (0, { s with remaining_item_claim_counts :=
                  (s.remaining_item_claim_counts.insert c (some (n - 1))) }) ∧
    ({ s with remaining_item_claim_counts :=
        (s.remaining_item_claim_counts.insert c (some (n - 1))) } :
        Solution).item_claim_exists c = .ok (decide (0 < n - 1)) := by
  have hmin : 0 < min v amt := lt_min hv hamt
  have hn1 : ¬ n < 1 := by omega
  have hge : ¬ (min v amt ≤ 0) := not_le.mpr hmin
  have hgt : ¬ ((0 : Int) > 0) := by omega
  constructor
  · simp only [allocate_claim_amount, allocate_capped, _process_claim, cap_item,
      cap_per_item, hnotex, hcnt, hica, hex, hun, hfb, hpil, hn1, hmin, hge, hgt,
      ge_iff_le, if_false, if_true, ite_false, ite_true]
  · simp [item_claim_exists, Dict.find?_insert]

/-- Witness for C9 on the drained item-limited state. -/
theorem zero_allocation_consumes_item_slot_witness :
    drained_item_state.allocate_claim_amount "I" 500 =
      .ok (0, { drained_item_state with remaining_item_claim_counts :=
                  (drained_item_state.remaining_item_claim_counts.insert "I" (some (2 - 1))) }) ∧
    ({ drained_item_state with remaining_item_claim_counts :=
        (drained_item_state.remaining_item_claim_counts.insert "I" (some (2 - 1))) } :
        Solution).item_claim_exists "I" = .ok (decide ((0 : Int) < 2 - 1)) :=
  zero_allocation_consumes_item_slot drained_item_state "I" 2 1000 500 exI none
    (by decide) (by decide) (by decide) (by decide) (by decide) (by decide)
    (by decide) (by decide) (by decide) (by decide)

/-! ### Claim C8 -/

/-- **C8**: during replay of a predicted claim, if the engine allocates less
than the claimed value — including after the item-claim retry loop — the
claim is counted invalid and the replay state is restored to its checkpoint:
the resulting solution state and the asset's remaining value are exactly the
ones from before the claim's allocation. -/
theorem invalid_claim_rolls_back (fuel : Nat) (s s1 s2 : Solution)
    (case_asset : Asset) (c : String) (v a0 allocated : Int)
    (happ : c ∈ case_asset.applicable_exemptions)
    (hval : v ≤ case_asset.dollar_value)
    (halloc : s.allocate_claim_amount c v = .ok (a0, s1))
    (hloop : item_claim_retry_loop fuel s1 c v a0 = .ok (allocated, s2))
    (hover : allocated < v) :
    process_predicted_claim fuel s case_asset c v =
      .ok (1, s, case_asset.dollar_value) := by
  have hpre : ¬ (c ∉ case_asset.applicable_exemptions ∨
      v > case_asset.dollar_value) := by
    push_neg
    exact ⟨happ, hval⟩
  simp only [process_predicted_claim, if_neg hpre, halloc, hloop, if_pos hover]

/-- Witness for C8: a 200 claim against a 250 asset under an exemption with
only 100 of balance allocates 100 < 200, is counted invalid, and leaves the
replay state and the asset value untouched. -/
theorem invalid_claim_rolls_back_witness :
    process_predicted_claim 5 replay_state carAsset "L" 200 =
      .ok (1, replay_state, carAsset.dollar_value) :=
  invalid_claim_rolls_back 5 replay_state replay_state_mid replay_state_mid
    carAsset "L" 200 100 100 (by decide) (by decide) (by decide) (by decide)
    (by decide)

end Solution

/-! ### Claim C10 -/

/-- **C10 counterexample**: the claim quantifies over every target `t`, but at
`t = -1` the prediction `t + 1 = 0` differs from the target and the divisor
`target + 1` is zero, so Python raises ZeroDivisionError (modelled `.error`)
instead of scoring relative error 0. -/
theorem relative_error_triggers_division_by_zero :
    _absolute_relative_error (-1 + 1) (-1) 1 = .error () ∧
    ¬ (_absolute_relative_error (-1 + 1) (-1) 1 = .ok 0) := by
  have herr : _absolute_relative_error (-1 + 1) (-1) 1 = .error () := by
    norm_num [_absolute_relative_error]
  refine ⟨herr, ?_⟩
  intro hc
  rw [herr] at hc
  exact Except.noConfusion hc

/-- **C10 (amended)**: for every target `t` with `t + 1 ≠ 0` (in particular
every nonnegative non-exempt total), the scorer's measure is
`|prediction / (target + 1) - 1|` whenever prediction differs from target,
and hence a prediction of exactly `t + 1` scores relative error 0 — one
dollar above the optimum is treated as an exact match, within the 5%
tolerance. -/
theorem relative_error_of_plus_one (p t : Rat) (h : t + 1 ≠ 0) :
    (p ≠ t → _absolute_relative_error p t 1 = .ok |p / (t + 1) - 1|) ∧
    _absolute_relative_error (t + 1) t 1 = .ok 0 := by
  constructor
  · intro hne
    simp only [_absolute_relative_error, if_neg hne, if_neg h]
  · have hne : t + 1 ≠ t := by
      intro hc
      have : (1 : Rat) = 0 := by linarith [hc]
      norm_num at this
    simp only [_absolute_relative_error, if_neg hne, if_neg h]
    rw [div_self h]
    norm_num

/-- Witness for the amended C10 at target 3. -/
theorem relative_error_of_plus_one_witness :
    ((3 : Rat) + 1 ≠ 3 → _absolute_relative_error (3 + 1) 3 1 = .ok |(3 + 1) / (3 + 1) - 1|) ∧
    _absolute_relative_error ((3 : Rat) + 1) 3 1 = .ok 0 :=
  relative_error_of_plus_one (3 + 1) 3 (by norm_num)

/-! ### Claim C7 -/

/-- **C7**: `solve_case_for_jurisdiction` is deterministic — two runs on
identical statute-set, case, and fuel inputs return identical solutions, in
particular identical `claimed_exemptions` maps and identical
`total_non_exempt_value`. -/
theorem solve_case_for_jurisdiction_deterministic
    (exs₁ exs₂ : List Exemption) (case₁ case₂ : Case) (fuel₁ fuel₂ : Nat)
    (r₁ r₂ : Solution)
    (hexs : exs₁ = exs₂) (hcase : case₁ = case₂) (hfuel : fuel₁ = fuel₂)
    (h₁ : solve_case_for_jurisdiction exs₁ case₁ fuel₁ = .ok r₁)
    (h₂ : solve_case_for_jurisdiction exs₂ case₂ fuel₂ = .ok r₂) :
    r₁.claimed_exemptions = r₂.claimed_exemptions ∧
    r₁.total_non_exempt_value = r₂.total_non_exempt_value := by
  subst hexs
  subst hcase
  subst hfuel
  rw [h₁] at h₂
  simp only [Except.ok.injEq] at h₂
  subst h₂
  exact ⟨rfl, rfl⟩

/-- Witness for C7 on the one-asset case with an empty statute set. -/
theorem solve_case_for_jurisdiction_deterministic_witness :
    cash_case_solution.claimed_exemptions = cash_case_solution.claimed_exemptions ∧
    cash_case_solution.total_non_exempt_value =
      cash_case_solution.total_non_exempt_value :=
  solve_case_for_jurisdiction_deterministic [] [] cash_case cash_case 3 3
    cash_case_solution cash_case_solution rfl rfl rfl (by decide) (by decide)

/-! ### Support lemmas for the search development -/

theorem Dict.find?_mem {α : Type} {d : Dict α} {k : String} {v : α}
    (h : d.find? k = some v) : (k, v) ∈ d := by
  induction d with
  | nil => simp [Dict.find?] at h
  | cons p rest ih =>
      obtain ⟨k₀, v₀⟩ := p
      simp only [Dict.find?] at h
      by_cases hk : k₀ = k
      · rw [if_pos hk] at h
        simp only [Option.some.injEq] at h
        subst hk
        subst h
        exact List.mem_cons_self _ _
      · rw [if_neg hk] at h
        exact List.mem_cons_of_mem _ (ih h)

theorem Dict.mem_insert {α : Type} {d : Dict α} {k : String} {v : α} {p : String × α}
    (h : p ∈ d.insert k v) : p ∈ d ∨ p = (k, v) := by
  induction d with
  | nil =>
      simp [Dict.insert] at h
      exact Or.inr h
  | cons q rest ih =>
      obtain ⟨k₀, v₀⟩ := q
      simp only [Dict.insert] at h
      by_cases hk : k₀ = k
      · rw [if_pos hk] at h
        rcases List.mem_cons.mp h with h | h
        · subst hk
          exact Or.inr h
        · exact Or.inl (List.mem_cons_of_mem _ h)
      · rw [if_neg hk] at h
        rcases List.mem_cons.mp h with h | h
        · exact Or.inl (h ▸ List.mem_cons_self _ _)
        · rcases ih h with h | h
          · exact Or.inl (List.mem_cons_of_mem _ h)
          · exact Or.inr h

theorem Dict.sum_insert_fresh (d : Dict Int) (k : String) (v : Int)
    (h : d.find? k = none) :
    ((d.insert k v).map (fun p => p.2)).sum = (d.map (fun p => p.2)).sum + v := by
  induction d with
  | nil => simp [Dict.insert]
  | cons p rest ih =>
      obtain ⟨k₀, v₀⟩ := p
      simp only [Dict.find?] at h
      by_cases hk : k₀ = k
      · rw [if_pos hk] at h
        simp at h
      · rw [if_neg hk] at h
        simp only [Dict.insert, if_neg hk, List.map_cons, List.sum_cons, ih h]
        ring

theorem python_min_le_left (a b : Solution) :
    (python_min a b).total_non_exempt_value ≤ a.total_non_exempt_value := by
  unfold python_min
  split
  next hlt => exact le_of_lt hlt
  next => exact le_refl _

theorem python_min_le_right (a b : Solution) :
    (python_min a b).total_non_exempt_value ≤ b.total_non_exempt_value := by
  unfold python_min
  split
  next => exact le_refl _
  next hlt => exact le_of_not_lt hlt

theorem python_min_eq_or (a b : Solution) : python_min a b = a ∨ python_min a b = b := by
  unfold python_min
  split
  · exact Or.inr rfl
  · exact Or.inl rfl

theorem total_insert_fresh (s : Solution) (k : String) (v : Int)
    (h : s.non_exempt_assets.find? k = none) :
    ({ s with non_exempt_assets := (s.non_exempt_assets.insert k v) } :
        Solution).total_non_exempt_value = s.total_non_exempt_value + v := by
  simp only [Solution.total_non_exempt_value]
  exact Dict.sum_insert_fresh _ _ _ h

theorem mergeClaim_sum (entries : List (String × Int)) (c : String) (amt : Int) :
    ((Solution.mergeClaim entries c amt).map (fun p => p.2)).sum
      = ((entries.map (fun p => p.2)).sum) + amt := by
  induction entries with
  | nil => simp [Solution.mergeClaim]
  | cons p rest ih =>
      obtain ⟨c₀, v₀⟩ := p
      by_cases hc : c₀ = c
      · simp only [Solution.mergeClaim, if_pos hc, List.map_cons, List.sum_cons]
        ring
      · simp only [Solution.mergeClaim, if_neg hc, List.map_cons, List.sum_cons, ih]
        ring

namespace Solution

theorem trigger_mutual_exclusion_frame (s : Solution) (e : Exemption) :
    (trigger_mutual_exclusion s e).exemptions = s.exemptions ∧
    (trigger_mutual_exclusion s e).unclaimed_exemptions = s.unclaimed_exemptions ∧
    (trigger_mutual_exclusion s e).claimed_exemptions = s.claimed_exemptions ∧
    (trigger_mutual_exclusion s e).non_exempt_assets = s.non_exempt_assets ∧
    (trigger_mutual_exclusion s e).remaining_item_claim_counts
      = s.remaining_item_claim_counts ∧
    (trigger_mutual_exclusion s e).item_claim_amounts = s.item_claim_amounts ∧
    (trigger_mutual_exclusion s e).remaining_fallback_relationships
      = s.remaining_fallback_relationships := by
  unfold trigger_mutual_exclusion
  split
  · split
    · exact ⟨rfl, rfl, rfl, rfl, rfl, rfl, rfl⟩
    · exact ⟨rfl, rfl, rfl, rfl, rfl, rfl, rfl⟩
  · exact ⟨rfl, rfl, rfl, rfl, rfl, rfl, rfl⟩

/-- How a successful `claim_exemption` changes the state: the claimed total
for the asset grows by the claimed amount, every other asset's claim entry is
untouched, and every table other than the claims and the excluded list is
untouched. -/
theorem claim_exemption_effects {s s' : Solution} {c d : String} {amt : Int}
    (h : s.claim_exemption c d amt = .ok s') :
    claimed_total s' d = claimed_total s d + amt ∧
    (∀ d', d' ≠ d → s'.claimed_exemptions.find? d' = s.claimed_exemptions.find? d') ∧
    s'.non_exempt_assets = s.non_exempt_assets ∧
    s'.unclaimed_exemptions = s.unclaimed_exemptions ∧
    s'.remaining_item_claim_counts = s.remaining_item_claim_counts ∧
    s'.exemptions = s.exemptions ∧
    s'.item_claim_amounts = s.item_claim_amounts ∧
    s'.remaining_fallback_relationships = s.remaining_fallback_relationships := by
  unfold claim_exemption at h
  split at h
  · simp at h
  next e hex =>
    simp only [Except.ok.injEq] at h
    obtain ⟨hf1, hf2, hf3, hf4, hf5, hf6, hf7⟩ := trigger_mutual_exclusion_frame s e
    subst h
    refine ⟨?_, ?_, hf4, hf2, hf5, hf1, hf6, hf7⟩
    · unfold claimed_total
      dsimp only
      rw [Dict.find?_insert, if_pos rfl]
      simp only [Option.getD_some]
      rw [mergeClaim_sum, hf3]
    · intro d' hd'
      dsimp only
      rw [Dict.find?_insert, if_neg (fun hc => hd' hc.symm), hf3]

/-- The conditional claim-recording step of the search and the greedy
comparator (`if allocated_amount > 0: claim_exemption ...`), for nonnegative
allocations. -/
theorem claim_step_effects {s s' : Solution} {c d : String} {amt : Int}
    (hamt : 0 ≤ amt)
    (h : (if amt > 0 then s.claim_exemption c d amt else .ok s) = .ok s') :
    claimed_total s' d = claimed_total s d + amt ∧
    (∀ d', d' ≠ d → s'.claimed_exemptions.find? d' = s.claimed_exemptions.find? d') ∧
    s'.non_exempt_assets = s.non_exempt_assets ∧
    s'.unclaimed_exemptions = s.unclaimed_exemptions ∧
    s'.remaining_item_claim_counts = s.remaining_item_claim_counts ∧
    s'.exemptions = s.exemptions ∧
    s'.item_claim_amounts = s.item_claim_amounts ∧
    s'.remaining_fallback_relationships = s.remaining_fallback_relationships := by
  split at h
  · exact claim_exemption_effects h
  next hpos =>
    have hz : amt = 0 := le_antisymm (le_of_not_lt hpos) hamt
    simp only [Except.ok.injEq] at h
    subst h
    subst hz
    exact ⟨by simp, fun _ _ => rfl, rfl, rfl, rfl, rfl, rfl, rfl⟩

end Solution

namespace Solution

/-- `_process_claim` keeps every stored balance nonnegative. -/
theorem _process_claim_preserves_nonneg {s : Solution} {c : String} {amt a : Int}
    {s' : Solution}
    (hs : ∀ p ∈ s.unclaimed_exemptions, 0 ≤ p.2.getD 0)
    (h : s._process_claim c amt = .ok (a, s')) :
    ∀ p ∈ s'.unclaimed_exemptions, 0 ≤ p.2.getD 0 := by
  unfold _process_claim at h
  split at h
  · simp at h
  · simp only [Except.ok.injEq, Prod.mk.injEq] at h
    rw [← h.2]
    exact hs
  next bal hbal =>
    split at h
    next hge =>
      simp only [Except.ok.injEq, Prod.mk.injEq] at h
      rw [← h.2]
      intro p hp
      rcases Dict.mem_insert hp with hp | hp
      · exact hs _ hp
      · subst hp
        simp only [Option.getD_some]
        omega
    next hge =>
      split at h
      next hpos =>
        simp only [Except.ok.injEq, Prod.mk.injEq] at h
        rw [← h.2]
        intro p hp
        rcases Dict.mem_insert hp with hp | hp
        · exact hs _ hp
        · subst hp
          simp
      next hpos =>
        simp only [Except.ok.injEq, Prod.mk.injEq] at h
        rw [← h.2]
        exact hs

/-- For a nonnegative request against nonnegative balances, `_process_claim`
never grants a negative amount. -/
theorem _process_claim_result_nonneg {s : Solution} {c : String} {amt a : Int}
    {s' : Solution} (hamt : 0 ≤ amt)
    (hs : ∀ p ∈ s.unclaimed_exemptions, 0 ≤ p.2.getD 0)
    (h : s._process_claim c amt = .ok (a, s')) : 0 ≤ a := by
  unfold _process_claim at h
  split at h
  · simp at h
  · simp only [Except.ok.injEq, Prod.mk.injEq] at h
    rw [← h.1]
    exact hamt
  next bal hbal =>
    have hb0 : 0 ≤ bal := by
      have := hs _ (Dict.find?_mem hbal)
      simpa using this
    split at h
    next hge =>
      simp only [Except.ok.injEq, Prod.mk.injEq] at h
      rw [← h.1]
      exact hamt
    next hge =>
      split at h <;> simp only [Except.ok.injEq, Prod.mk.injEq] at h <;>
        rw [← h.1] <;> exact hb0

/-- The two request caps preserve nonnegativity. -/
theorem cap_nonneg (amt : Int) (ica pil : Option Int)
    (hamt : 0 ≤ amt) (hica : 0 ≤ ica.getD 0) (hpil : 0 ≤ pil.getD 0) :
    0 ≤ cap_per_item (cap_item amt ica) pil := by
  cases ica with
  | none =>
      cases pil with
      | none => exact hamt
      | some l => exact le_min (by simpa using hpil) hamt
  | some v =>
      have hv : 0 ≤ v := by simpa using hica
      have h1 : 0 ≤ min v amt := le_min hv hamt
      cases pil with
      | none => exact h1
      | some l => exact le_min (by simpa using hpil) h1

/-- `allocate_capped` grants a nonnegative amount and keeps the state's
dollar figures nonnegative. -/
theorem allocate_capped_nonneg {s : Solution} {c : String} {amt : Int}
    {ica : Option Int} {a : Int} {s' : Solution}
    (hamt : 0 ≤ amt) (hica : 0 ≤ ica.getD 0) (hs : nonneg_state s)
    (h : s.allocate_capped c amt ica = .ok (a, s')) :
    0 ≤ a ∧ nonneg_state s' := by
  obtain ⟨hun, hia, hexe⟩ := hs
  obtain ⟨e, hexq, a1, s1, hp, hrest⟩ := allocate_capped_cases h
  have hpil : 0 ≤ e.per_item_limit.getD 0 := hexe _ (Dict.find?_mem hexq)
  have hcap : 0 ≤ cap_per_item (cap_item amt ica) e.per_item_limit :=
    cap_nonneg _ _ _ hamt hica hpil
  have ha1 : 0 ≤ a1 := _process_claim_result_nonneg hcap hun hp
  have hun1 : ∀ p ∈ s1.unclaimed_exemptions, 0 ≤ p.2.getD 0 :=
    _process_claim_preserves_nonneg hun hp
  obtain ⟨f1, f2, f3, f4, f5, f6, f7⟩ := _process_claim_frame hp
  have hs1 : nonneg_state s1 := ⟨hun1, by rw [f5]; exact hia, by rw [f1]; exact hexe⟩
  rcases hrest with ⟨-, rfl, rfl⟩ | ⟨-, fco, b, hfb, hrest⟩
  · exact ⟨ha1, hs1⟩
  · rcases hrest with ⟨-, rfl, rfl⟩ | ⟨fc, bal, rfl, rfl, fb, s2, hp2, hrest⟩
    · exact ⟨ha1, hs1⟩
    · have hun2 : ∀ p ∈ s2.unclaimed_exemptions, 0 ≤ p.2.getD 0 :=
        _process_claim_preserves_nonneg hun1 hp2
      obtain ⟨g1, g2, g3, g4, g5, g6, g7⟩ := _process_claim_frame hp2
      have hs2 : nonneg_state s2 :=
        ⟨hun2, by rw [g5, f5]; exact hia, by rw [g1, f1]; exact hexe⟩
      rcases hrest with ⟨hpos, rfl, rfl⟩ | ⟨-, rfl, rfl⟩
      · exact ⟨by linarith [le_of_lt hpos], hs2⟩
      · exact ⟨ha1, hs2⟩

/-- `allocate_claim_amount` grants a nonnegative amount and keeps the state's
dollar figures nonnegative. -/
theorem allocate_claim_amount_nonneg {s : Solution} {c : String} {amt a : Int}
    {s' : Solution} (hamt : 0 ≤ amt) (hs : nonneg_state s)
    (h : s.allocate_claim_amount c amt = .ok (a, s')) :
    0 ≤ a ∧ nonneg_state s' := by
  rcases allocate_claim_amount_cases h with ⟨-, rfl, rfl⟩ | ⟨-, cnt, hc, hrest⟩
  · exact ⟨le_refl 0, hs⟩
  · rcases hrest with ⟨-, hcap⟩ | ⟨n, -, -, rfl, rfl⟩ | ⟨n, -, -, ica, hica, hcap⟩
    · exact allocate_capped_nonneg hamt (by simp) hs hcap
    · exact ⟨le_refl 0, hs⟩
    · have hica0 : 0 ≤ ica.getD 0 := hs.2.1 _ (Dict.find?_mem hica)
      exact @allocate_capped_nonneg
        { s with remaining_item_claim_counts :=
            (s.remaining_item_claim_counts.insert c (some (n - 1))) }
        c amt ica a s' hamt hica0 hs hcap

end Solution

/-- Unfolding one iteration of the citation loop through
`search_branch_step`. -/
theorem search_branches_cons (fuel : Nat) (citation : String)
    (citations : List String) (asset : Asset) (rest : List Asset)
    (solution : Solution) (optimal : Option Solution) :
    search_branches (fuel + 1) (citation :: citations) asset rest solution optimal =
      match search_branch_step fuel citation asset rest solution optimal with
      | .error e => .error e
      | .ok branch_solution =>
          search_branches fuel citations asset rest solution
            (some (match optimal with
                   | none => branch_solution
                   | some o => python_min branch_solution o)) := by
  cases halloc : solution.allocate_claim_amount citation asset.dollar_value with
  | error e => simp [search_branches, search_branch_step, halloc]
  | ok p =>
      obtain ⟨amt, s1⟩ := p
      cases hclaim : (if amt > 0
          then s1.claim_exemption citation asset.description amt
          else Except.ok s1) with
      | error e => simp [search_branches, search_branch_step, halloc, hclaim]
      | ok ns =>
          by_cases hfull : amt = asset.dollar_value
          · subst hfull
            simp [search_branches, search_branch_step, halloc, hclaim]
          · cases hitem : ns.item_claim_exists citation with
            | error e =>
                simp [search_branches, search_branch_step, halloc, hclaim, hfull, hitem]
            | ok b =>
                cases b <;>
                  simp [search_branches, search_branch_step, halloc, hclaim, hfull, hitem]

/-- The search never returns a solution worse than its incumbent (and the
citation loop returns a `some` incumbent no worse than the one given). -/
theorem search_le_incumbent_aux : ∀ fuel : Nat,
    (∀ assets solution o r,
      recursive_optimal_exemption_search fuel assets solution (some o) = .ok r →
      r.total_non_exempt_value ≤ o.total_non_exempt_value) ∧
    (∀ citations asset rest solution o opt',
      search_branches fuel citations asset rest solution (some o) = .ok opt' →
      ∃ o', opt' = some o' ∧
        o'.total_non_exempt_value ≤ o.total_non_exempt_value) := by
  intro fuel
  induction fuel with
  | zero =>
      constructor
      · intro assets solution o r h
        simp [recursive_optimal_exemption_search] at h
      · intro citations asset rest solution o opt' h
        simp [search_branches] at h
  | succ fuel ih =>
      obtain ⟨ihs, ihb⟩ := ih
      constructor
      · intro assets solution o r h
        cases assets with
        | nil =>
            simp only [recursive_optimal_exemption_search, Except.ok.injEq] at h
            subst h
            exact python_min_le_right _ _
        | cons asset rest =>
            simp only [recursive_optimal_exemption_search] at h
            split at h
            · split at h
              next =>
                simp only [Except.ok.injEq] at h
                subst h
                exact le_refl _
              next => exact ihs _ _ _ _ h
            · split at h
              · simp at h
              next new_opt hbr =>
                obtain ⟨o', rfl, ho'⟩ := ihb _ _ _ _ _ _ hbr
                split at h
                · simp at h
                next ns hns =>
                  simp only [Except.ok.injEq] at h
                  subst h
                  exact le_trans (python_min_le_right _ _) ho'
      · intro citations asset rest solution o opt' h
        cases citations with
        | nil =>
            simp only [search_branches, Except.ok.injEq] at h
            exact ⟨o, h.symm, le_refl _⟩
        | cons c cs =>
            rw [search_branches_cons] at h
            split at h
            · simp at h
            next bs hbs =>
              obtain ⟨o', rfl, ho'⟩ := ihb _ _ _ _ _ _ h
              exact ⟨o', rfl, le_trans ho' (python_min_le_right _ _)⟩

theorem total_congr {s s' : Solution}
    (h : s'.non_exempt_assets = s.non_exempt_assets) :
    s'.total_non_exempt_value = s.total_non_exempt_value := by
  unfold Solution.total_non_exempt_value
  rw [h]

/-- The conditional claim-recording step never touches the non-exempt
assets. -/
theorem claim_step_ne {s1 s2 : Solution} {c d : String} {amt : Int}
    (h : (if amt > 0 then s1.claim_exemption c d amt else .ok s1) = .ok s2) :
    s2.non_exempt_assets = s1.non_exempt_assets := by
  split at h
  · exact (Solution.claim_exemption_effects h).2.2.1
  · simp only [Except.ok.injEq] at h
    rw [← h]

/-- An allocation followed by the conditional claim step never touches the
non-exempt assets. -/
theorem alloc_claim_ne {s s1 s2 : Solution} {c d : String} {v amt : Int}
    (halloc : s.allocate_claim_amount c v = .ok (amt, s1))
    (hclaim : (if amt > 0 then s1.claim_exemption c d amt else .ok s1) = .ok s2) :
    s2.non_exempt_assets = s.non_exempt_assets := by
  rw [claim_step_ne hclaim]
  exact (Solution.allocate_claim_amount_frame halloc).2.2.1

/-- The running total of non-exempt value only grows along a search path
(over distinct, not-yet-recorded, nonnegative-value assets). -/
theorem searchPath_total_mono {assets : List Asset} {s leaf : Solution}
    (hp : SearchPath assets s leaf) :
    (∀ a ∈ assets, 0 ≤ a.dollar_value) →
    ((assets.map Asset.description).Nodup) →
    (∀ a ∈ assets, s.non_exempt_assets.find? a.description = none) →
    s.total_non_exempt_value ≤ leaf.total_non_exempt_value := by
  induction hp with
  | nil s => exact fun _ _ _ => le_refl _
  | no_exemptions a rest s r hrec ih =>
      intro hval hnodup hfresh
      have hfh : s.non_exempt_assets.find? a.description = none :=
        hfresh a (List.mem_cons_self _ _)
      have hins := total_insert_fresh s a.description a.dollar_value hfh
      have hv : 0 ≤ a.dollar_value := hval a (List.mem_cons_self _ _)
      have hstep : s.total_non_exempt_value ≤
          ({ s with non_exempt_assets :=
              (s.non_exempt_assets.insert a.description a.dollar_value) } :
            Solution).total_non_exempt_value := by
        rw [hins]
        linarith
      refine le_trans hstep (ih ?_ ?_ ?_)
      · intro a' ha'
        exact hval a' (List.mem_cons_of_mem _ ha')
      · simp only [List.map_cons] at hnodup
        exact (List.nodup_cons.mp hnodup).2
      · intro a' ha'
        have hne : a.description ≠ a'.description := by
          intro hcontra
          simp only [List.map_cons] at hnodup
          exact (List.nodup_cons.mp hnodup).1
            (hcontra ▸ List.mem_map_of_mem Asset.description ha')
        show (s.non_exempt_assets.insert a.description a.dollar_value).find?
          a'.description = none
        rw [Dict.find?_insert, if_neg hne]
        exact hfresh a' (List.mem_cons_of_mem _ ha')
  | claim_full a rest s s1 s2 r c amt hc halloc hclaim hfull hrec ih =>
      intro hval hnodup hfresh
      have hne2 : s2.non_exempt_assets = s.non_exempt_assets :=
        alloc_claim_ne halloc hclaim
      rw [show s.total_non_exempt_value = s2.total_non_exempt_value from
        (total_congr hne2).symm]
      refine ih ?_ ?_ ?_
      · intro a' ha'
        exact hval a' (List.mem_cons_of_mem _ ha')
      · simp only [List.map_cons] at hnodup
        exact (List.nodup_cons.mp hnodup).2
      · intro a' ha'
        rw [hne2]
        exact hfresh a' (List.mem_cons_of_mem _ ha')
  | claim_partial_item a rest s s1 s2 r c amt hc halloc hclaim hpart hitem hrec ih =>
      intro hval hnodup hfresh
      have hne2 : s2.non_exempt_assets = s.non_exempt_assets :=
        alloc_claim_ne halloc hclaim
      have hv : 0 ≤ a.dollar_value := hval a (List.mem_cons_self _ _)
      have hle : amt ≤ a.dollar_value := Solution.allocate_claim_amount_le hv halloc
      rw [show s.total_non_exempt_value = s2.total_non_exempt_value from
        (total_congr hne2).symm]
      refine ih ?_ ?_ ?_
      · intro a' ha'
        rcases List.mem_cons.mp ha' with rfl | ha'
        · simp only []
          omega
        · exact hval a' (List.mem_cons_of_mem _ ha')
      · simpa only [List.map_cons] using hnodup
      · intro a' ha'
        rw [hne2]
        rcases List.mem_cons.mp ha' with rfl | ha'
        · exact hfresh a (List.mem_cons_self _ _)
        · exact hfresh a' (List.mem_cons_of_mem _ ha')
  | claim_partial_drop a rest s s1 s2 r c amt hc halloc hclaim hpart hitem hrec ih =>
      intro hval hnodup hfresh
      have hne2 : s2.non_exempt_assets = s.non_exempt_assets :=
        alloc_claim_ne halloc hclaim
      have hv : 0 ≤ a.dollar_value := hval a (List.mem_cons_self _ _)
      have hle : amt ≤ a.dollar_value := Solution.allocate_claim_amount_le hv halloc
      rw [show s.total_non_exempt_value = s2.total_non_exempt_value from
        (total_congr hne2).symm]
      refine ih ?_ ?_ ?_
      · intro a' ha'
        rcases List.mem_cons.mp ha' with rfl | ha'
        · simp only []
          omega
        · exact hval a' (List.mem_cons_of_mem _ ha')
      · simpa only [List.map_cons] using hnodup
      · intro a' ha'
        rw [hne2]
        rcases List.mem_cons.mp ha' with rfl | ha'
        · exact hfresh a (List.mem_cons_self _ _)
        · exact hfresh a' (List.mem_cons_of_mem _ ha')
  | claim_nothing a rest s r hrec ih =>
      intro hval hnodup hfresh
      refine ih ?_ ?_ ?_
      · intro a' ha'
        rcases List.mem_cons.mp ha' with rfl | ha'
        · exact hval a (List.mem_cons_self _ _)
        · exact hval a' (List.mem_cons_of_mem _ ha')
      · simpa only [List.map_cons] using hnodup
      · intro a' ha'
        rcases List.mem_cons.mp ha' with rfl | ha'
        · exact hfresh a (List.mem_cons_self _ _)
        · exact hfresh a' (List.mem_cons_of_mem _ ha')

theorem claimed_total_congr {s s' : Solution} {d : String}
    (h : s'.claimed_exemptions.find? d = s.claimed_exemptions.find? d) :
    claimed_total s' d = claimed_total s d := by
  unfold claimed_total
  rw [h]

theorem residual_congr {s s' : Solution} {d : String}
    (h : s'.non_exempt_assets.find? d = s.non_exempt_assets.find? d) :
    residual s' d = residual s d := by
  unfold residual
  rw [h]

theorem residual_of_none {s : Solution} {d : String}
    (h : s.non_exempt_assets.find? d = none) : residual s d = 0 := by
  unfold residual
  rw [h]
  rfl

theorem residual_of_some {s : Solution} {d : String} {v : Int}
    (h : s.non_exempt_assets.find? d = some v) : residual s d = v := by
  unfold residual
  rw [h]
  rfl

/-- Combined bookkeeping of one allocate-then-record step of the search. -/
theorem alloc_claim_effects {s s1 s2 : Solution} {c d : String} {v amt : Int}
    (hv : 0 ≤ v) (hnn : nonneg_state s)
    (halloc : s.allocate_claim_amount c v = .ok (amt, s1))
    (hclaim : (if amt > 0 then s1.claim_exemption c d amt else .ok s1) = .ok s2) :
    0 ≤ amt ∧ nonneg_state s2 ∧
    s2.non_exempt_assets = s.non_exempt_assets ∧
    claimed_total s2 d = claimed_total s d + amt ∧
    (∀ d', d' ≠ d →
      s2.claimed_exemptions.find? d' = s.claimed_exemptions.find? d') := by
  obtain ⟨hamt0, hnn1⟩ := Solution.allocate_claim_amount_nonneg hv hnn halloc
  obtain ⟨hce1, hce2, hce3, hce4, hce5, hce6, hce7, hce8⟩ :=
    Solution.claim_step_effects hamt0 hclaim
  obtain ⟨hf1, hf2, hf3, hf4, hf5⟩ := Solution.allocate_claim_amount_frame halloc
  have hct1 : claimed_total s1 d = claimed_total s d := by
    unfold claimed_total
    rw [hf2]
  refine ⟨hamt0, ?_, ?_, ?_, ?_⟩
  · exact ⟨by rw [hce4]; exact hnn1.1, by rw [hce7]; exact hnn1.2.1,
      by rw [hce6]; exact hnn1.2.2⟩
  · rw [hce3, hf3]
  · rw [hce1, hct1]
  · intro d' hd'
    rw [hce2 d' hd', hf2]

/-- **Conservation along a search path**: for every asset of the list, the
asset's dollar value splits exactly into the claim values recorded for it
plus its non-exempt residual; claims and residuals of other descriptions are
untouched. -/
theorem searchPath_conservation {assets : List Asset} {s leaf : Solution}
    (hp : SearchPath assets s leaf) :
    nonneg_state s →
    (∀ a ∈ assets, 0 ≤ a.dollar_value) →
    ((assets.map Asset.description).Nodup) →
    (∀ a ∈ assets, s.non_exempt_assets.find? a.description = none) →
    (∀ a ∈ assets,
      claimed_total leaf a.description + residual leaf a.description =
        claimed_total s a.description + a.dollar_value) ∧
    (∀ d, d ∉ assets.map Asset.description →
      leaf.claimed_exemptions.find? d = s.claimed_exemptions.find? d ∧
      leaf.non_exempt_assets.find? d = s.non_exempt_assets.find? d) := by
  induction hp with
  | nil s =>
      exact fun _ _ _ _ => ⟨fun a ha => absurd ha (List.not_mem_nil a),
        fun d _ => ⟨rfl, rfl⟩⟩
  | no_exemptions a rest s r hrec ih =>
      intro hnn hval hnodup hfresh
      simp only [List.map_cons, List.nodup_cons] at hnodup
      have hfh : s.non_exempt_assets.find? a.description = none :=
        hfresh a (List.mem_cons_self _ _)
      obtain ⟨ih1, ih2⟩ := ih hnn
        (fun a' ha' => hval a' (List.mem_cons_of_mem _ ha'))
        hnodup.2
        (by
          intro a' ha'
          have hne : a.description ≠ a'.description := fun hcontra =>
            hnodup.1 (hcontra ▸ List.mem_map_of_mem Asset.description ha')
          show (s.non_exempt_assets.insert a.description a.dollar_value).find?
            a'.description = none
          rw [Dict.find?_insert, if_neg hne]
          exact hfresh a' (List.mem_cons_of_mem _ ha'))
      constructor
      · intro a' ha'
        rcases List.mem_cons.mp ha' with rfl | ha'
        · have hnotmem : a'.description ∉ rest.map Asset.description := hnodup.1
          obtain ⟨hcl, hne⟩ := ih2 a'.description hnotmem
          have hcl' : r.claimed_exemptions.find? a'.description =
              s.claimed_exemptions.find? a'.description := hcl
          have hne' : r.non_exempt_assets.find? a'.description =
              some a'.dollar_value := by
            rw [hne]
            show (s.non_exempt_assets.insert a'.description a'.dollar_value).find?
              a'.description = _
            rw [Dict.find?_insert, if_pos rfl]
          rw [claimed_total_congr hcl', residual_of_some hne']
        · have := ih1 a' ha'
          rw [this]
          have : claimed_total
              { s with non_exempt_assets :=
                  (s.non_exempt_assets.insert a.description a.dollar_value) }
              a'.description = claimed_total s a'.description := rfl
          rw [this]
      · intro d hd
        simp only [List.map_cons, List.mem_cons, not_or] at hd
        obtain ⟨hd1, hd2⟩ := hd
        obtain ⟨hcl, hne⟩ := ih2 d hd2
        refine ⟨hcl, ?_⟩
        rw [hne]
        show (s.non_exempt_assets.insert a.description a.dollar_value).find? d = _
        rw [Dict.find?_insert, if_neg (fun hc => hd1 hc.symm)]
  | claim_full a rest s s1 s2 r c amt hc halloc hclaim hfull hrec ih =>
      intro hnn hval hnodup hfresh
      simp only [List.map_cons, List.nodup_cons] at hnodup
      have hv : 0 ≤ a.dollar_value := hval a (List.mem_cons_self _ _)
      obtain ⟨hamt0, hnn2, hne2, hct2, hoth2⟩ :=
        alloc_claim_effects hv hnn halloc hclaim
      obtain ⟨ih1, ih2⟩ := ih hnn2
        (fun a' ha' => hval a' (List.mem_cons_of_mem _ ha'))
        hnodup.2
        (by
          intro a' ha'
          rw [hne2]
          exact hfresh a' (List.mem_cons_of_mem _ ha'))
      constructor
      · intro a' ha'
        rcases List.mem_cons.mp ha' with rfl | ha'
        · obtain ⟨hcl, hne⟩ := ih2 a'.description hnodup.1
          have hnef : r.non_exempt_assets.find? a'.description = none := by
            rw [hne, hne2]
            exact hfresh a' (List.mem_cons_self _ _)
          rw [claimed_total_congr hcl, residual_of_none hnef, hct2, hfull]
          ring
        · have hne' : a'.description ≠ a.description := by
            intro hcontra
            exact hnodup.1 (hcontra ▸ List.mem_map_of_mem Asset.description ha')
          rw [ih1 a' ha', claimed_total_congr (hoth2 a'.description hne')]
      · intro d hd
        simp only [List.map_cons, List.mem_cons, not_or] at hd
        obtain ⟨hd1, hd2⟩ := hd
        obtain ⟨hcl, hne⟩ := ih2 d hd2
        exact ⟨by rw [hcl, hoth2 d hd1], by rw [hne, hne2]⟩
  | claim_partial_item a rest s s1 s2 r c amt hc halloc hclaim hpart hitem hrec ih =>
      intro hnn hval hnodup hfresh
      simp only [List.map_cons, List.nodup_cons] at hnodup
      have hv : 0 ≤ a.dollar_value := hval a (List.mem_cons_self _ _)
      have hle : amt ≤ a.dollar_value := Solution.allocate_claim_amount_le hv halloc
      obtain ⟨hamt0, hnn2, hne2, hct2, hoth2⟩ :=
        alloc_claim_effects hv hnn halloc hclaim
      obtain ⟨ih1, ih2⟩ := ih hnn2
        (by
          intro a' ha'
          rcases List.mem_cons.mp ha' with ha'eq | ha'
          · rw [ha'eq]
            show (0 : Int) ≤ a.dollar_value - amt
            omega
          · exact hval a' (List.mem_cons_of_mem _ ha'))
        (by
          simp only [List.map_cons]
          exact List.nodup_cons.mpr ⟨hnodup.1, hnodup.2⟩)
        (by
          intro a' ha'
          rw [hne2]
          rcases List.mem_cons.mp ha' with ha'eq | ha'
          · rw [ha'eq]
            show s.non_exempt_assets.find? a.description = none
            exact hfresh a (List.mem_cons_self _ _)
          · exact hfresh a' (List.mem_cons_of_mem _ ha'))
      constructor
      · intro a' ha'
        rcases List.mem_cons.mp ha' with ha'eq | ha'
        · have hhead : claimed_total r a.description + residual r a.description =
              claimed_total s2 a.description + (a.dollar_value - amt) :=
            ih1 _ (List.mem_cons_self _ _)
          rw [ha'eq]
          rw [hhead, hct2]
          ring
        · have hne' : a'.description ≠ a.description := by
            intro hcontra
            exact hnodup.1 (hcontra ▸ List.mem_map_of_mem Asset.description ha')
          rw [ih1 a' (List.mem_cons_of_mem _ ha'),
            claimed_total_congr (hoth2 a'.description hne')]
      · intro d hd
        simp only [List.map_cons, List.mem_cons, not_or] at hd
        obtain ⟨hd1, hd2⟩ := hd
        obtain ⟨hcl, hne⟩ := ih2 d
          (by
            simp only [List.map_cons, List.mem_cons, not_or]
            exact ⟨hd1, hd2⟩)
        exact ⟨by rw [hcl, hoth2 d hd1], by rw [hne, hne2]⟩
  | claim_partial_drop a rest s s1 s2 r c amt hc halloc hclaim hpart hitem hrec ih =>
      intro hnn hval hnodup hfresh
      simp only [List.map_cons, List.nodup_cons] at hnodup
      have hv : 0 ≤ a.dollar_value := hval a (List.mem_cons_self _ _)
      have hle : amt ≤ a.dollar_value := Solution.allocate_claim_amount_le hv halloc
      obtain ⟨hamt0, hnn2, hne2, hct2, hoth2⟩ :=
        alloc_claim_effects hv hnn halloc hclaim
      obtain ⟨ih1, ih2⟩ := ih hnn2
        (by
          intro a' ha'
          rcases List.mem_cons.mp ha' with ha'eq | ha'
          · rw [ha'eq]
            show (0 : Int) ≤ a.dollar_value - amt
            omega
          · exact hval a' (List.mem_cons_of_mem _ ha'))
        (by
          simp only [List.map_cons]
          exact List.nodup_cons.mpr ⟨hnodup.1, hnodup.2⟩)
        (by
          intro a' ha'
          rw [hne2]
          rcases List.mem_cons.mp ha' with ha'eq | ha'
          · rw [ha'eq]
            show s.non_exempt_assets.find? a.description = none
            exact hfresh a (List.mem_cons_self _ _)
          · exact hfresh a' (List.mem_cons_of_mem _ ha'))
      constructor
      · intro a' ha'
        rcases List.mem_cons.mp ha' with ha'eq | ha'
        · have hhead : claimed_total r a.description + residual r a.description =
              claimed_total s2 a.description + (a.dollar_value - amt) :=
            ih1 _ (List.mem_cons_self _ _)
          rw [ha'eq]
          rw [hhead, hct2]
          ring
        · have hne' : a'.description ≠ a.description := by
            intro hcontra
            exact hnodup.1 (hcontra ▸ List.mem_map_of_mem Asset.description ha')
          rw [ih1 a' (List.mem_cons_of_mem _ ha'),
            claimed_total_congr (hoth2 a'.description hne')]
      · intro d hd
        simp only [List.map_cons, List.mem_cons, not_or] at hd
        obtain ⟨hd1, hd2⟩ := hd
        obtain ⟨hcl, hne⟩ := ih2 d
          (by
            simp only [List.map_cons, List.mem_cons, not_or]
            exact ⟨hd1, hd2⟩)
        exact ⟨by rw [hcl, hoth2 d hd1], by rw [hne, hne2]⟩
  | claim_nothing a rest s r hrec ih =>
      intro hnn hval hnodup hfresh
      obtain ⟨ih1, ih2⟩ := ih hnn
        (by
          intro a' ha'
          rcases List.mem_cons.mp ha' with ha'eq | ha'
          · rw [ha'eq]
            exact hval a (List.mem_cons_self _ _)
          · exact hval a' (List.mem_cons_of_mem _ ha'))
        (by
          simp only [List.map_cons] at hnodup ⊢
          exact hnodup)
        (by
          intro a' ha'
          rcases List.mem_cons.mp ha' with ha'eq | ha'
          · rw [ha'eq]
            exact hfresh a (List.mem_cons_self _ _)
          · exact hfresh a' (List.mem_cons_of_mem _ ha'))
      constructor
      · intro a' ha'
        rcases List.mem_cons.mp ha' with ha'eq | ha'
        · rw [ha'eq]
          exact ih1 { a with applicable_exemptions := [] } (List.mem_cons_self _ _)
        · exact ih1 a' (List.mem_cons_of_mem _ ha')
      · intro d hd
        refine ih2 d ?_
        simp only [List.map_cons, List.mem_cons, not_or] at hd ⊢
        exact hd

/-- One branch of the citation loop either fails, or produces a solution that
completes a search path from the current node. -/
theorem search_branch_step_reached
    (ihs : ∀ assets solution optimal r,
      recursive_optimal_exemption_search fuel assets solution optimal = .ok r →
      (∃ o, optimal = some o ∧ r = o) ∨ SearchPath assets solution r)
    {c : String} {asset : Asset} {rest : List Asset} {solution : Solution}
    {optimal : Option Solution} {bs : Solution}
    (hc : c ∈ asset.applicable_exemptions)
    (hbs : search_branch_step fuel c asset rest solution optimal = .ok bs) :
    (∃ o, optimal = some o ∧ bs = o) ∨ SearchPath (asset :: rest) solution bs := by
  unfold search_branch_step at hbs
  split at hbs
  · simp at hbs
  next amt s1 halloc =>
    split at hbs
    · simp at hbs
    next ns hclaim =>
      split at hbs
      next hfull =>
        rcases ihs _ _ _ _ hbs with hleft | hpath
        · exact Or.inl hleft
        · exact Or.inr
            (SearchPath.claim_full asset rest solution s1 ns bs c amt hc halloc
              hclaim hfull hpath)
      next hfull =>
        split at hbs
        · simp at hbs
        next hitem =>
          rcases ihs _ _ _ _ hbs with hleft | hpath
          · exact Or.inl hleft
          · exact Or.inr
              (SearchPath.claim_partial_item asset rest solution s1 ns bs c amt hc
                halloc hclaim hfull hitem hpath)
        next hitem =>
          rcases ihs _ _ _ _ hbs with hleft | hpath
          · exact Or.inl hleft
          · exact Or.inr
              (SearchPath.claim_partial_drop asset rest solution s1 ns bs c amt hc
                halloc hclaim hfull hitem hpath)

/-- Every `.ok` result of the search (resp. of the citation loop) is either
its given incumbent or the completion of a search path from its node. -/
theorem search_result_reached_aux : ∀ fuel : Nat,
    (∀ assets solution optimal r,
      recursive_optimal_exemption_search fuel assets solution optimal = .ok r →
      (∃ o, optimal = some o ∧ r = o) ∨ SearchPath assets solution r) ∧
    (∀ citations asset rest solution optimal opt',
      search_branches fuel citations asset rest solution optimal = .ok opt' →
      (∀ c ∈ citations, c ∈ asset.applicable_exemptions) →
      (opt' = optimal ∨
        ∃ r', opt' = some r' ∧ SearchPath (asset :: rest) solution r')) := by
  intro fuel
  induction fuel with
  | zero =>
      constructor
      · intro assets solution optimal r h
        simp [recursive_optimal_exemption_search] at h
      · intro citations asset rest solution optimal opt' h hsub
        simp [search_branches] at h
  | succ fuel ih =>
      obtain ⟨ihs, ihb⟩ := ih
      constructor
      · intro assets solution optimal r h
        cases assets with
        | nil =>
            simp only [recursive_optimal_exemption_search, Except.ok.injEq] at h
            subst h
            cases optimal with
            | none => exact Or.inr (SearchPath.nil solution)
            | some o =>
                have hgoal : (∃ o1, some o = some o1 ∧ python_min solution o = o1) ∨
                    SearchPath ([] : List Asset) solution (python_min solution o) := by
                  rcases python_min_eq_or solution o with heq | heq
                  · rw [heq]
                    exact Or.inr (SearchPath.nil solution)
                  · rw [heq]
                    exact Or.inl ⟨o, rfl, rfl⟩
                exact hgoal
        | cons asset rest =>
            simp only [recursive_optimal_exemption_search] at h
            split at h
            next happ =>
              split at h
              next o =>
                split at h
                next =>
                  simp only [Except.ok.injEq] at h
                  exact Or.inl ⟨o, rfl, h.symm⟩
                next =>
                  rcases ihs _ _ _ _ h with hleft | hpath
                  · exact Or.inl hleft
                  · exact Or.inr (SearchPath.no_exemptions asset rest solution r hpath)
              next =>
                rcases ihs _ _ _ _ h with ⟨o, hno, -⟩ | hpath
                · exact absurd hno (by simp)
                · exact Or.inr (SearchPath.no_exemptions asset rest solution r hpath)
            next happ =>
              split at h
              · simp at h
              next new_opt hbr =>
                split at h
                · simp at h
                next ns hns =>
                  simp only [Except.ok.injEq] at h
                  subst h
                  have hsub := ihs _ _ _ _ hns
                  have hbrd := ihb _ _ _ _ _ _ hbr (fun c hc => hc)
                  have f_cn : ∀ x, (∃ o, new_opt = some o ∧ x = o) ∨
                      SearchPath ({ asset with applicable_exemptions := [] } :: rest)
                        solution x →
                      (∃ o, optimal = some o ∧ x = o) ∨
                        SearchPath (asset :: rest) solution x := by
                    intro x hx
                    rcases hx with ⟨o2, hno2, hxo2⟩ | hpath
                    · rw [hxo2]
                      rcases hbrd with heq | ⟨r', hr', hpath'⟩
                      · rw [heq] at hno2
                        exact Or.inl ⟨o2, hno2, rfl⟩
                      · rw [hr'] at hno2
                        simp only [Option.some.injEq] at hno2
                        subst hno2
                        exact Or.inr hpath'
                    · exact Or.inr
                        (SearchPath.claim_nothing asset rest solution x hpath)
                  cases new_opt with
                  | none =>
                      rcases hsub with ⟨o, hno, -⟩ | hpath
                      · exact absurd hno (by simp)
                      · exact f_cn ns (Or.inr hpath)
                  | some o' =>
                      have f_o' : (∃ o, optimal = some o ∧ o' = o) ∨
                          SearchPath (asset :: rest) solution o' := by
                        rcases hbrd with heq | ⟨r', hr', hpath'⟩
                        · exact Or.inl ⟨o', heq.symm, rfl⟩
                        · simp only [Option.some.injEq] at hr'
                          subst hr'
                          exact Or.inr hpath'
                      have hgoal : (∃ o, optimal = some o ∧ python_min ns o' = o) ∨
                          SearchPath (asset :: rest) solution (python_min ns o') := by
                        rcases python_min_eq_or ns o' with heq | heq
                        · rw [heq]
                          exact f_cn ns hsub
                        · rw [heq]
                          exact f_o'
                      exact hgoal
      · intro citations asset rest solution optimal opt' h hsub
        cases citations with
        | nil =>
            simp only [search_branches, Except.ok.injEq] at h
            exact Or.inl h.symm
        | cons c cs =>
            rw [search_branches_cons] at h
            split at h
            · simp at h
            next bs hbs =>
              have hbsd := search_branch_step_reached ihs
                (hsub c (List.mem_cons_self c cs)) hbs
              rcases ihb _ _ _ _ _ _ h (fun c' hc' => hsub c' (List.mem_cons_of_mem _ hc'))
                with heq | ⟨r', hr', hpath'⟩
              · rw [heq]
                cases optimal with
                | none =>
                    rcases hbsd with ⟨o, hno, -⟩ | hpath
                    · exact absurd hno (by simp)
                    · exact Or.inr ⟨bs, rfl, hpath⟩
                | some o =>
                    rcases python_min_eq_or bs o with heq2 | heq2
                    · rcases hbsd with ⟨o1, hno1, hbs1⟩ | hpath
                      · refine Or.inl ?conva
                        show some (python_min bs o) = some o
                        rw [heq2, hbs1]
                        exact hno1.symm
                      · refine Or.inr ⟨bs, ?convb, hpath⟩
                        show some (python_min bs o) = some bs
                        rw [heq2]
                    · refine Or.inl ?convc
                      show some (python_min bs o) = some o
                      rw [heq2]
              · exact Or.inr ⟨r', hr', hpath'⟩

/-- Eliminating the head of a search path over an asset with no applicable
exemptions: the path must record the asset's full value as non-exempt and
continue over the remaining assets. -/
theorem searchPath_empty_head {assets : List Asset} {s leaf : Solution}
    (hp : SearchPath assets s leaf) :
    ∀ a rest, assets = a :: rest → a.applicable_exemptions = [] →
    SearchPath rest
      { s with non_exempt_assets :=
          (s.non_exempt_assets.insert a.description a.dollar_value) } leaf := by
  induction hp with
  | nil s =>
      intro a rest h ha
      exact absurd h (by simp)
  | no_exemptions a0 rest0 s r hrec ih =>
      intro a rest h ha
      obtain ⟨rfl, rfl⟩ : a0 = a ∧ rest0 = rest := by simpa using h
      exact hrec
  | claim_full a0 rest0 s s1 s2 r c amt hc halloc hclaim hfull hrec ih =>
      intro a rest h ha
      obtain ⟨rfl, rfl⟩ : a0 = a ∧ rest0 = rest := by simpa using h
      rw [ha] at hc
      exact absurd hc (List.not_mem_nil c)
  | claim_partial_item a0 rest0 s s1 s2 r c amt hc halloc hclaim hpart hitem hrec ih =>
      intro a rest h ha
      obtain ⟨rfl, rfl⟩ : a0 = a ∧ rest0 = rest := by simpa using h
      rw [ha] at hc
      exact absurd hc (List.not_mem_nil c)
  | claim_partial_drop a0 rest0 s s1 s2 r c amt hc halloc hclaim hpart hitem hrec ih =>
      intro a rest h ha
      obtain ⟨rfl, rfl⟩ : a0 = a ∧ rest0 = rest := by simpa using h
      rw [ha] at hc
      exact absurd hc (List.not_mem_nil c)
  | claim_nothing a0 rest0 s r hrec ih =>
      intro a rest h ha
      obtain ⟨rfl, rfl⟩ : a0 = a ∧ rest0 = rest := by simpa using h
      exact ih { a0 with applicable_exemptions := [] } rest0 rfl rfl

/-- The search result is never worse than the completion of any search path
from its node; the citation loop returns a `some` incumbent no worse than the
completion of any branch of a listed citation.  Both hold over assets with
distinct descriptions, nonnegative values, and no prior non-exempt record. -/
theorem search_le_path_aux : ∀ fuel : Nat,
    (∀ assets solution optimal r leaf,
      recursive_optimal_exemption_search fuel assets solution optimal = .ok r →
      SearchPath assets solution leaf →
      (∀ a ∈ assets, 0 ≤ a.dollar_value) →
      ((assets.map Asset.description)).Nodup →
      (∀ a ∈ assets, solution.non_exempt_assets.find? a.description = none) →
      r.total_non_exempt_value ≤ leaf.total_non_exempt_value) ∧
    (∀ citations asset rest solution optimal opt' c leaf,
      search_branches fuel citations asset rest solution optimal = .ok opt' →
      c ∈ citations →
      BranchCompletion c asset rest solution leaf →
      (∀ a ∈ asset :: rest, 0 ≤ a.dollar_value) →
      (((asset :: rest).map Asset.description)).Nodup →
      (∀ a ∈ asset :: rest, solution.non_exempt_assets.find? a.description = none) →
      ∃ o', opt' = some o' ∧
        o'.total_non_exempt_value ≤ leaf.total_non_exempt_value) := by
  intro fuel
  induction fuel with
  | zero =>
      constructor
      · intro assets solution optimal r leaf h
        simp [recursive_optimal_exemption_search] at h
      · intro citations asset rest solution optimal opt' c leaf h
        simp [search_branches] at h
  | succ fuel ih =>
      obtain ⟨ihs, ihb⟩ := ih
      constructor
      · intro assets solution optimal r leaf h hpath hval hnodup hfresh
        cases assets with
        | nil =>
            simp only [recursive_optimal_exemption_search, Except.ok.injEq] at h
            subst h
            cases hpath
            cases optimal with
            | none => exact le_refl _
            | some o =>
                show (python_min solution o).total_non_exempt_value ≤
                  solution.total_non_exempt_value
                exact python_min_le_left _ _
        | cons asset rest =>
            simp only [recursive_optimal_exemption_search] at h
            have hval' : ∀ a ∈ rest, 0 ≤ a.dollar_value :=
              fun a hha => hval a (List.mem_cons_of_mem _ hha)
            have hnodup' : (rest.map Asset.description).Nodup := by
              simp only [List.map_cons, List.nodup_cons] at hnodup
              exact hnodup.2
            have hhead : asset.description ∉ rest.map Asset.description := by
              simp only [List.map_cons, List.nodup_cons] at hnodup
              exact hnodup.1
            split at h
            next happ =>
              have ha : asset.applicable_exemptions = [] :=
                List.isEmpty_iff.mp happ
              have hstep := searchPath_empty_head hpath asset rest rfl ha
              have hfresh' : ∀ a ∈ rest,
                  ({ solution with non_exempt_assets :=
                      (solution.non_exempt_assets.insert asset.description
                        asset.dollar_value) } :
                    Solution).non_exempt_assets.find? a.description = none := by
                intro a hha
                have hne : asset.description ≠ a.description := fun hcontra =>
                  hhead (hcontra ▸ List.mem_map_of_mem Asset.description hha)
                show (solution.non_exempt_assets.insert asset.description
                    asset.dollar_value).find? a.description = none
                rw [Dict.find?_insert, if_neg hne]
                exact hfresh a (List.mem_cons_of_mem _ hha)
              split at h
              next o =>
                split at h
                next hge =>
                  simp only [Except.ok.injEq] at h
                  subst h
                  exact le_trans hge
                    (searchPath_total_mono hstep hval' hnodup' hfresh')
                next hge =>
                  exact ihs _ _ _ _ _ h hstep hval' hnodup' hfresh'
              next =>
                exact ihs _ _ _ _ _ h hstep hval' hnodup' hfresh'
            next happ =>
              split at h
              · simp at h
              next new_opt hbr =>
                split at h
                · simp at h
                next new_solution hns =>
                  simp only [Except.ok.injEq] at h
                  subst h
                  have hval0 : ∀ a ∈
                      ({ asset with applicable_exemptions := [] } :: rest),
                      0 ≤ a.dollar_value := by
                    intro a hha
                    rcases List.mem_cons.mp hha with haeq | hha
                    · rw [haeq]
                      exact hval asset (List.mem_cons_self _ _)
                    · exact hval a (List.mem_cons_of_mem _ hha)
                  have hnodup0 : ((({ asset with applicable_exemptions := [] } ::
                      rest)).map Asset.description).Nodup := hnodup
                  have hfresh0 : ∀ a ∈
                      ({ asset with applicable_exemptions := [] } :: rest),
                      solution.non_exempt_assets.find? a.description = none := by
                    intro a hha
                    rcases List.mem_cons.mp hha with haeq | hha
                    · rw [haeq]
                      exact hfresh asset (List.mem_cons_self _ _)
                    · exact hfresh a (List.mem_cons_of_mem _ hha)
                  have hnothing : SearchPath
                      ({ asset with applicable_exemptions := [] } :: rest)
                      solution leaf →
                      (match new_opt with
                       | none => new_solution
                       | some o =>
                           python_min new_solution o).total_non_exempt_value ≤
                        leaf.total_non_exempt_value := by
                    intro hp0
                    have hns_le : new_solution.total_non_exempt_value ≤
                        leaf.total_non_exempt_value :=
                      ihs _ _ _ _ _ hns hp0 hval0 hnodup0 hfresh0
                    cases new_opt with
                    | none => exact hns_le
                    | some o => exact le_trans (python_min_le_left _ _) hns_le
                  have hclaimed : ∀ {c2 : String},
                      c2 ∈ asset.applicable_exemptions →
                      BranchCompletion c2 asset rest solution leaf →
                      (match new_opt with
                       | none => new_solution
                       | some o =>
                           python_min new_solution o).total_non_exempt_value ≤
                        leaf.total_non_exempt_value := by
                    intro c2 hc2 hbc
                    obtain ⟨o', rfl, ho'⟩ :=
                      ihb _ _ _ _ _ _ _ _ hbr hc2 hbc hval hnodup hfresh
                    exact le_trans (python_min_le_right _ _) ho'
                  cases hpath with
                  | no_exemptions _ _ _ _ hrec =>
                      exact hnothing (SearchPath.no_exemptions _ _ _ _ hrec)
                  | claim_full _ _ _ s1 s2 _ c amt hc halloc hclaim hfull hrec =>
                      exact hclaimed hc
                        ⟨amt, s1, s2, halloc, hclaim, Or.inl ⟨hfull, hrec⟩⟩
                  | claim_partial_item _ _ _ s1 s2 _ c amt hc halloc hclaim
                      hpart hitem hrec =>
                      exact hclaimed hc
                        ⟨amt, s1, s2, halloc, hclaim,
                          Or.inr (Or.inl ⟨hpart, hitem, hrec⟩)⟩
                  | claim_partial_drop _ _ _ s1 s2 _ c amt hc halloc hclaim
                      hpart hitem hrec =>
                      exact hclaimed hc
                        ⟨amt, s1, s2, halloc, hclaim,
                          Or.inr (Or.inr ⟨hpart, hitem, hrec⟩)⟩
                  | claim_nothing _ _ _ _ hrec =>
                      exact hnothing hrec
      · intro citations asset rest solution optimal opt' c leaf h hcmem hbc
          hval hnodup hfresh
        cases citations with
        | nil => exact absurd hcmem (List.not_mem_nil c)
        | cons c0 cs =>
            rw [search_branches_cons] at h
            split at h
            · simp at h
            next bs hbs =>
              have hval' : ∀ a ∈ rest, 0 ≤ a.dollar_value :=
                fun a hha => hval a (List.mem_cons_of_mem _ hha)
              have hnodup' : (rest.map Asset.description).Nodup := by
                simp only [List.map_cons, List.nodup_cons] at hnodup
                exact hnodup.2
              have hhead : asset.description ∉ rest.map Asset.description := by
                simp only [List.map_cons, List.nodup_cons] at hnodup
                exact hnodup.1
              rcases List.mem_cons.mp hcmem with rfl | hcs
              · obtain ⟨amt, s1, s2, halloc, hclaim, hsub⟩ := hbc
                unfold search_branch_step at hbs
                split at hbs
                · simp at hbs
                next amt' s1' halloc' =>
                  rw [halloc] at halloc'
                  simp only [Except.ok.injEq, Prod.mk.injEq] at halloc'
                  obtain ⟨rfl, rfl⟩ := halloc'
                  split at hbs
                  · simp at hbs
                  next s2' hclaim' =>
                    rw [hclaim] at hclaim'
                    simp only [Except.ok.injEq] at hclaim'
                    subst hclaim'
                    have hfreshs2 : ∀ a ∈ rest,
                        s2.non_exempt_assets.find? a.description = none := by
                      intro a hha
                      rw [alloc_claim_ne halloc hclaim]
                      exact hfresh a (List.mem_cons_of_mem _ hha)
                    have hfin : bs.total_non_exempt_value ≤
                        leaf.total_non_exempt_value →
                        ∃ o', opt' = some o' ∧
                          o'.total_non_exempt_value ≤
                            leaf.total_non_exempt_value := by
                      intro hbs_le
                      obtain ⟨o', rfl, ho'⟩ :=
                        (search_le_incumbent_aux fuel).2 _ _ _ _ _ _ h
                      refine ⟨o', rfl, le_trans ho' (le_trans ?_ hbs_le)⟩
                      cases optimal with
                      | none => exact le_refl _
                      | some o =>
                          show (python_min bs o).total_non_exempt_value ≤
                            bs.total_non_exempt_value
                          exact python_min_le_left _ _
                    rcases hsub with ⟨hfull, hpath2⟩ | ⟨hfull, hitem, hpath2⟩ |
                      ⟨hfull, hitem, hpath2⟩
                    · rw [if_pos hfull] at hbs
                      exact hfin
                        (ihs _ _ _ _ _ hbs hpath2 hval' hnodup' hfreshs2)
                    · rw [if_neg hfull] at hbs
                      split at hbs
                      · simp at hbs
                      next hb =>
                        refine hfin (ihs _ _ _ _ _ hbs hpath2 ?_ ?_ ?_)
                        · intro a hha
                          rcases List.mem_cons.mp hha with haeq | hha
                          · rw [haeq]
                            show (0 : Int) ≤ asset.dollar_value - amt
                            have hv : 0 ≤ asset.dollar_value :=
                              hval asset (List.mem_cons_self _ _)
                            have hle : amt ≤ asset.dollar_value :=
                              Solution.allocate_claim_amount_le hv halloc
                            omega
                          · exact hval' a hha
                        · exact hnodup
                        · intro a hha
                          rcases List.mem_cons.mp hha with haeq | hha
                          · rw [haeq]
                            show s2.non_exempt_assets.find? asset.description =
                              none
                            rw [alloc_claim_ne halloc hclaim]
                            exact hfresh asset (List.mem_cons_self _ _)
                          · exact hfreshs2 a hha
                      next hb =>
                        rw [hitem] at hb
                        simp at hb
                    · rw [if_neg hfull] at hbs
                      split at hbs
                      · simp at hbs
                      next hb =>
                        rw [hitem] at hb
                        simp at hb
                      next hb =>
                        refine hfin (ihs _ _ _ _ _ hbs hpath2 ?_ ?_ ?_)
                        · intro a hha
                          rcases List.mem_cons.mp hha with haeq | hha
                          · rw [haeq]
                            show (0 : Int) ≤ asset.dollar_value - amt
                            have hv : 0 ≤ asset.dollar_value :=
                              hval asset (List.mem_cons_self _ _)
                            have hle : amt ≤ asset.dollar_value :=
                              Solution.allocate_claim_amount_le hv halloc
                            omega
                          · exact hval' a hha
                        · exact hnodup
                        · intro a hha
                          rcases List.mem_cons.mp hha with haeq | hha
                          · rw [haeq]
                            show s2.non_exempt_assets.find? asset.description =
                              none
                            rw [alloc_claim_ne halloc hclaim]
                            exact hfresh asset (List.mem_cons_self _ _)
                          · exact hfreshs2 a hha
              · exact ihb _ _ _ _ _ _ _ _ h hcs hbc hval hnodup hfresh

/-- The conditional claim-recording step never touches the remaining item
claim counts. -/
theorem claim_step_counts {s s' : Solution} {c d : String} {amt : Int}
    (h : (if amt > 0 then s.claim_exemption c d amt else .ok s) = .ok s') :
    s'.remaining_item_claim_counts = s.remaining_item_claim_counts := by
  split at h
  · exact (Solution.claim_exemption_effects h).2.2.2.2.1
  · simp only [Except.ok.injEq] at h
    rw [← h]

/-- `allocate_claim_amount` keeps every item-claim-count key present. -/
theorem allocate_counts_isSome {s : Solution} {c c' : String} {amt a : Int}
    {s' : Solution}
    (h : s.allocate_claim_amount c amt = .ok (a, s'))
    (hk : ((s.remaining_item_claim_counts.find? c')).isSome) :
    ((s'.remaining_item_claim_counts.find? c')).isSome := by
  rcases Solution.allocate_claim_amount_cases h with ⟨-, -, rfl⟩ |
    ⟨-, cnt, hc, hrest⟩
  · exact hk
  · rcases hrest with ⟨-, hcap⟩ | ⟨n, -, -, -, rfl⟩ | ⟨n, -, -, ica, hica, hcap⟩
    · rw [(Solution.allocate_capped_frame hcap).2.2.2.1]
      exact hk
    · exact hk
    · rw [(Solution.allocate_capped_frame hcap).2.2.2.1]
      exact Dict.isSome_find?_insert _ _ _ _ hk

/-- A successful run of the greedy comparator is a search path: each asset is
fully claimed under its first applicable citation or left (with any residual)
non-exempt. -/
theorem greedy_isSearchPath : ∀ (assets : List Asset) (s g : Solution),
    greedy_first_assignment assets s = .ok g →
    (∀ a ∈ assets, ∀ c ∈ a.applicable_exemptions,
      ((s.remaining_item_claim_counts.find? c)).isSome) →
    SearchPath assets s g := by
  intro assets
  induction assets with
  | nil =>
      intro s g h hcov
      simp only [greedy_first_assignment, Except.ok.injEq] at h
      subst h
      exact SearchPath.nil s
  | cons a rest ih =>
      intro s g h hcov
      simp only [greedy_first_assignment] at h
      split at h
      next happ =>
        refine SearchPath.no_exemptions a rest s g ?_
        refine ih _ _ h ?_
        intro a' ha' c hc
        exact hcov a' (List.mem_cons_of_mem _ ha') c hc
      next c cs happ =>
        split at h
        · simp at h
        next amt s1 halloc =>
          split at h
          · simp at h
          next s2 hclaim =>
            have hcmem : c ∈ a.applicable_exemptions := by
              rw [happ]
              exact List.mem_cons_self _ _
            have hkeep : ∀ c',
                ((s.remaining_item_claim_counts.find? c')).isSome →
                ((s2.remaining_item_claim_counts.find? c')).isSome := by
              intro c' hk
              rw [claim_step_counts hclaim]
              exact allocate_counts_isSome halloc hk
            have hcov2 : ∀ a' ∈ rest, ∀ c' ∈ a'.applicable_exemptions,
                ((s2.remaining_item_claim_counts.find? c')).isSome :=
              fun a' ha' c' hc' =>
                hkeep c' (hcov a' (List.mem_cons_of_mem _ ha') c' hc')
            split at h
            next hfull =>
              exact SearchPath.claim_full a rest s s1 s2 g c amt hcmem halloc
                hclaim hfull (ih _ _ h hcov2)
            next hfull =>
              have hitem0 : ((s2.remaining_item_claim_counts.find? c)).isSome :=
                hkeep c (hcov a (List.mem_cons_self _ _) c hcmem)
              obtain ⟨rc, hrc⟩ := Option.isSome_iff_exists.mp hitem0
              have hpath2 := ih _ _ h hcov2
              rcases rc with - | n
              · have hitem : s2.item_claim_exists c = .ok false := by
                  unfold Solution.item_claim_exists
                  rw [hrc]
                refine SearchPath.claim_partial_drop a rest s s1 s2 g c amt
                  hcmem halloc hclaim hfull hitem ?_
                exact SearchPath.no_exemptions _ _ _ _ hpath2
              · by_cases hn : 0 < n
                · have hitem : s2.item_claim_exists c = .ok true := by
                    unfold Solution.item_claim_exists
                    rw [hrc]
                    simp [hn]
                  refine SearchPath.claim_partial_item a rest s s1 s2 g c amt
                    hcmem halloc hclaim hfull hitem ?_
                  exact SearchPath.no_exemptions _ _ _ _ hpath2
                · have hitem : s2.item_claim_exists c = .ok false := by
                    unfold Solution.item_claim_exists
                    rw [hrc]
                    simp [hn]
                  refine SearchPath.claim_partial_drop a rest s s1 s2 g c amt
                    hcmem halloc hclaim hfull hitem ?_
                  exact SearchPath.no_exemptions _ _ _ _ hpath2

theorem except_bind_ok {ε α β : Type} (a : α) (f : α → Except ε β) :
    (Except.ok a >>= f : Except ε β) = f a := rfl

theorem except_bind_err {ε α β : Type} (e : ε) (f : α → Except ε β) :
    ((Except.error e : Except ε α) >>= f) = .error e := rfl

theorem except_pure_eq {ε α : Type} (a : α) : (pure a : Except ε α) = .ok a := rfl

/-- Every entry of a table built by folding `insert` stems from the initial
table or from one of the folded exemptions. -/
theorem buildDict_aux_mem {α : Type} (f : Exemption → α) :
    ∀ (exs : List Exemption) (d : Dict α) (p : String × α),
      p ∈ exs.foldl (fun d e => d.insert e.citation (f e)) d →
      p ∈ d ∨ ∃ e ∈ exs, p = (e.citation, f e) := by
  intro exs
  induction exs with
  | nil =>
      intro d p hp
      exact Or.inl hp
  | cons e rest ih =>
      intro d p hp
      rcases ih (d.insert e.citation (f e)) p hp with hp | ⟨e', he', rfl⟩
      · rcases Dict.mem_insert hp with hp | rfl
        · exact Or.inl hp
        · exact Or.inr ⟨e, List.mem_cons_self _ _, rfl⟩
      · exact Or.inr ⟨e', List.mem_cons_of_mem _ he', rfl⟩

/-- Every entry of a constructor lookup table is the image of one of the
statute set's exemptions. -/
theorem buildDict_mem_image {α : Type} (f : Exemption → α) (exs : List Exemption)
    (p : String × α) (hp : p ∈ buildDict exs f) :
    ∃ e ∈ exs, p = (e.citation, f e) := by
  rcases buildDict_aux_mem f exs [] p hp with hp | h
  · exact absurd hp (List.not_mem_nil p)
  · exact h

/-- Folding `insert` keeps a key present, and makes every folded citation
present. -/
theorem buildDict_aux_isSome {α : Type} (f : Exemption → α) :
    ∀ (exs : List Exemption) (d : Dict α) (c : String),
      (c ∈ exemption_citations exs ∨ ((Dict.find? d c)).isSome) →
      (((exs.foldl (fun d e => d.insert e.citation (f e)) d).find? c)).isSome := by
  intro exs
  induction exs with
  | nil =>
      intro d c hc
      rcases hc with hc | hc
      · exact absurd hc (by simp [exemption_citations])
      · exact hc
  | cons e rest ih =>
      intro d c hc
      refine ih (d.insert e.citation (f e)) c ?_
      rcases hc with hc | hc
      · have hc2 : c ∈ e.citation :: exemption_citations rest := hc
        rcases List.mem_cons.mp hc2 with hceq | hcr
        · subst hceq
          refine Or.inr ?_
          rw [Dict.find?_insert, if_pos rfl]
          rfl
        · exact Or.inl hcr
      · exact Or.inr (Dict.isSome_find?_insert _ _ _ _ hc)

/-- Entries of the monadically built per-item amount table stem from the
initial table or from a successful image of a folded exemption. -/
theorem buildDictM_aux_mem {α : Type} (f : Exemption → Except Unit α) :
    ∀ (exs : List Exemption) (d amounts : Dict α),
      (exs.foldlM (fun d e => do
        let v ← f e
        return d.insert e.citation v) d) = .ok amounts →
      ∀ p ∈ amounts,
        p ∈ d ∨ ∃ e ∈ exs, ∃ v, f e = .ok v ∧ p = (e.citation, v) := by
  intro exs
  induction exs with
  | nil =>
      intro d amounts h p hp
      have hd : (pure d : Except Unit (Dict α)) = .ok amounts := h
      rw [except_pure_eq] at hd
      simp only [Except.ok.injEq] at hd
      subst hd
      exact Or.inl hp
  | cons e rest ih =>
      intro d amounts h p hp
      cases hf : f e with
      | error err =>
          have h2 : ((f e >>= fun v => pure (d.insert e.citation v) :
              Except Unit (Dict α)) >>= fun d2 =>
              rest.foldlM (fun d e => do
                let v ← f e
                return d.insert e.citation v) d2) = .ok amounts := h
          rw [hf, except_bind_err, except_bind_err] at h2
          exact absurd h2 (by simp)
      | ok v =>
          have h2 : ((f e >>= fun v => pure (d.insert e.citation v) :
              Except Unit (Dict α)) >>= fun d2 =>
              rest.foldlM (fun d e => do
                let v ← f e
                return d.insert e.citation v) d2) = .ok amounts := h
          rw [hf, except_bind_ok, except_pure_eq, except_bind_ok] at h2
          rcases ih _ _ h2 p hp with hp | ⟨e', he', v', hv', rfl⟩
          · rcases Dict.mem_insert hp with hp | rfl
            · exact Or.inl hp
            · exact Or.inr ⟨e, List.mem_cons_self _ _, v, hf, rfl⟩
          · exact Or.inr ⟨e', List.mem_cons_of_mem _ he', v', hv', rfl⟩

/-- The shape of the state `init_solution` returns: empty claim and
non-exempt tables, and constructor-built lookup tables. -/
theorem init_solution_shape {exs : List Exemption} {married : Bool}
    {s0 : Solution} (h : init_solution exs married = .ok s0) :
    s0.non_exempt_assets = [] ∧ s0.claimed_exemptions = [] ∧
    s0.remaining_item_claim_counts = buildDict exs (item_count_for married) ∧
    s0.unclaimed_exemptions = buildDict exs (limit_for married) ∧
    s0.exemptions = buildDict exs (fun e => e) ∧
    (∃ amounts, buildDictM exs (item_amount_for married) = .ok amounts ∧
      s0.item_claim_amounts = amounts) := by
  unfold init_solution at h
  cases hb : buildDictM exs (item_amount_for married) with
  | error e =>
      rw [hb, except_bind_err] at h
      exact absurd h (by simp)
  | ok amounts =>
      rw [hb, except_bind_ok, except_pure_eq] at h
      simp only [Except.ok.injEq] at h
      subst h
      exact ⟨rfl, rfl, rfl, rfl, rfl, amounts, rfl, rfl⟩

/-- For nonnegative statutory limits and item counts, every per-item amount
the constructor precomputes is nonnegative. -/
theorem init_amounts_nonneg {exs : List Exemption} {married : Bool}
    {amounts : Dict (Option Int)}
    (hlim : ∀ e ∈ exs, 0 ≤ (limit_for married e).getD 0)
    (hcnt : ∀ e ∈ exs, 0 ≤ (item_count_for married e).getD 0)
    (hb : buildDictM exs (item_amount_for married) = .ok amounts) :
    ∀ p ∈ amounts, 0 ≤ p.2.getD 0 := by
  intro p hp
  rcases buildDictM_aux_mem _ exs [] amounts hb p hp with hp0 | ⟨e, he, v, hfe, rfl⟩
  · exact absurd hp0 (List.not_mem_nil p)
  · unfold item_amount_for at hfe
    split at hfe
    · simp only [Except.ok.injEq] at hfe
      subst hfe
      simp
    next n hn =>
      split at hfe
      · simp only [Except.ok.injEq] at hfe
        subst hfe
        simp
      next hn0 =>
        split at hfe
        · simp at hfe
        next l hl =>
          simp only [Except.ok.injEq] at hfe
          subst hfe
          simp only [Option.getD_some]
          have hln : 0 ≤ l := by
            have := hlim e he
            rw [hl] at this
            simpa using this
          have hnn : 0 ≤ n := by
            have := hcnt e he
            rw [hn] at this
            simpa using this
          exact Int.ediv_nonneg hln hnn

/-- `init_solution` produces a state whose stored dollar figures are all
nonnegative, given nonnegative statutory limits, item counts and per-item
limits. -/
theorem init_solution_nonneg {exs : List Exemption} {married : Bool}
    {s0 : Solution}
    (hlim : ∀ e ∈ exs, 0 ≤ (limit_for married e).getD 0)
    (hcnt : ∀ e ∈ exs, 0 ≤ (item_count_for married e).getD 0)
    (hpil : ∀ e ∈ exs, 0 ≤ e.per_item_limit.getD 0)
    (h : init_solution exs married = .ok s0) : nonneg_state s0 := by
  obtain ⟨-, -, -, hunc, hexs, amounts, hb, hica⟩ := init_solution_shape h
  refine ⟨?_, ?_, ?_⟩
  · rw [hunc]
    intro p hp
    rcases buildDict_mem_image _ exs p hp with ⟨e, he, rfl⟩
    exact hlim e he
  · rw [hica]
    exact init_amounts_nonneg hlim hcnt hb
  · rw [hexs]
    intro p hp
    rcases buildDict_mem_image _ exs p hp with ⟨e, he, rfl⟩
    exact hpil e he

/-- Every citation of the statute set has an entry in the item claim count
table of the state `init_solution` returns. -/
theorem init_counts_isSome {exs : List Exemption} {married : Bool}
    {s0 : Solution} (h : init_solution exs married = .ok s0) {c : String}
    (hc : c ∈ exemption_citations exs) :
    ((s0.remaining_item_claim_counts.find? c)).isSome := by
  obtain ⟨-, -, hcnt, -⟩ := init_solution_shape h
  rw [hcnt]
  exact buildDict_aux_isSome _ exs [] c (Or.inl hc)

theorem insert_by_exemption_count_perm (a : Asset) :
    ∀ l : List Asset, List.Perm (insert_by_exemption_count a l) (a :: l) := by
  intro l
  induction l with
  | nil => exact List.Perm.refl _
  | cons b rest ih =>
      unfold insert_by_exemption_count
      split
      · exact List.Perm.refl _
      · exact List.Perm.trans (List.Perm.cons b ih) (List.Perm.swap a b rest)

theorem sort_by_exemption_count_perm :
    ∀ l : List Asset, List.Perm (sort_by_exemption_count l) l := by
  intro l
  induction l with
  | nil => exact List.Perm.refl _
  | cons a rest ih =>
      exact List.Perm.trans (insert_by_exemption_count_perm a _)
        (List.Perm.cons a ih)

/-- The prepared asset list is a permutation of the case's assets with their
applicable exemptions restricted to the jurisdiction's citations. -/
theorem prepare_assets_perm (exs : List Exemption) (case_assets : List Asset) :
    List.Perm (prepare_assets exs case_assets)
      (case_assets.map (fun a =>
        { a with applicable_exemptions :=
            (a.applicable_exemptions.filter
              (fun c => c ∈ exemption_citations exs)) })) :=
  sort_by_exemption_count_perm _

theorem prepare_assets_mem (exs : List Exemption) (case_assets : List Asset)
    {a : Asset} (ha : a ∈ case_assets) :
    { a with applicable_exemptions :=
        (a.applicable_exemptions.filter
          (fun c => c ∈ exemption_citations exs)) } ∈
      prepare_assets exs case_assets :=
  (List.Perm.mem_iff (prepare_assets_perm exs case_assets)).mpr
    (List.mem_map_of_mem _ ha)

theorem prepare_assets_mem_inv (exs : List Exemption) (case_assets : List Asset)
    {a : Asset} (ha : a ∈ prepare_assets exs case_assets) :
    ∃ a0 ∈ case_assets, a =
      { a0 with applicable_exemptions :=
          (a0.applicable_exemptions.filter
            (fun c => c ∈ exemption_citations exs)) } := by
  rcases List.mem_map.mp
    ((List.Perm.mem_iff (prepare_assets_perm exs case_assets)).mp ha) with
    ⟨a0, ha0, heq⟩
  exact ⟨a0, ha0, heq.symm⟩

/-- The preparation step preserves the asset values, the distinctness of the
descriptions, and their absence from an empty non-exempt table. -/
theorem prepare_assets_side (exs : List Exemption) (case : Case)
    (hval : ∀ a ∈ case.assets, 0 ≤ a.dollar_value)
    (hnodup : ((case.assets.map Asset.description)).Nodup) :
    (∀ a ∈ prepare_assets exs case.assets, 0 ≤ a.dollar_value) ∧
    (((prepare_assets exs case.assets).map Asset.description)).Nodup := by
  constructor
  · intro a ha
    rcases prepare_assets_mem_inv exs case.assets ha with ⟨a0, ha0, rfl⟩
    exact hval a0 ha0
  · have hperm := List.Perm.map Asset.description
      (prepare_assets_perm exs case.assets)
    have hmap : ((case.assets.map (fun a =>
        { a with applicable_exemptions :=
            (a.applicable_exemptions.filter
              (fun c => c ∈ exemption_citations exs)) })).map
          Asset.description) = case.assets.map Asset.description := by
      rw [List.map_map]
      rfl
    rw [hmap] at hperm
    exact (List.Perm.nodup_iff hperm).mpr hnodup

/-- **C2**: over case assets with distinct descriptions and nonnegative
values, the total non-exempt value of the solution
`solve_case_for_jurisdiction` returns is less than or equal to the total
non-exempt value of the single-pass greedy assignment that takes the first
applicable exemption per asset over the same prepared assets. -/
theorem search_not_worse_than_greedy (exs : List Exemption) (case : Case)
    (fuel : Nat) (r g : Solution)
    (hval : ∀ a ∈ case.assets, 0 ≤ a.dollar_value)
    (hnodup : ((case.assets.map Asset.description)).Nodup)
    (hr : solve_case_for_jurisdiction exs case fuel = .ok r)
    (hg : greedy_case_assignment exs case = .ok g) :
    r.total_non_exempt_value ≤ g.total_non_exempt_value := by
  unfold solve_case_for_jurisdiction at hr
  unfold greedy_case_assignment at hg
  split at hr
  · simp at hr
  next s0 hinit =>
    split at hg
    next e hinit2 =>
      rw [hinit] at hinit2
      exact absurd hinit2 (by simp)
    next s1 hinit2 =>
      rw [hinit] at hinit2
      simp only [Except.ok.injEq] at hinit2
      subst hinit2
      have hcov : ∀ a ∈ prepare_assets exs case.assets,
          ∀ c ∈ a.applicable_exemptions,
          ((s0.remaining_item_claim_counts.find? c)).isSome := by
        intro a ha c hc
        rcases prepare_assets_mem_inv exs case.assets ha with ⟨a0, ha0, rfl⟩
        have hcf : c ∈ a0.applicable_exemptions.filter
            (fun c => c ∈ exemption_citations exs) := hc
        have hc' : c ∈ exemption_citations exs := by
          have := (List.mem_filter.mp hcf).2
          simpa using this
        exact init_counts_isSome hinit hc'
      have hpath := greedy_isSearchPath _ _ _ hg hcov
      obtain ⟨hval', hnodup'⟩ := prepare_assets_side exs case hval hnodup
      have hfresh' : ∀ a ∈ prepare_assets exs case.assets,
          s0.non_exempt_assets.find? a.description = none := by
        obtain ⟨hne, -⟩ := init_solution_shape hinit
        intro a ha
        rw [hne]
        rfl
      exact (search_le_path_aux fuel).1 _ _ _ _ _ hr hpath hval' hnodup' hfresh'

/-- Witness for C2 on the one-asset cash case with an empty statute set: both
the search and the greedy pass leave the full 300 non-exempt. -/
theorem search_not_worse_than_greedy_witness :
    ((cash_case.assets.map Asset.description)).Nodup ∧
    cash_case_solution.total_non_exempt_value ≤
      cash_case_solution.total_non_exempt_value :=
  ⟨by decide,
    search_not_worse_than_greedy [] cash_case 3 cash_case_solution
      cash_case_solution (by decide) (by decide) (by decide) (by decide)⟩

/-- **C3**: in the solution `solve_case_for_jurisdiction` returns over case
assets with distinct descriptions and nonnegative values (and nonnegative
statutory limits, item claim counts and per-item limits), every case asset's
dollar value equals the sum of the claim values recorded for it in
`claimed_exemptions` plus its residual in `non_exempt_assets` (the residual
being 0 when the asset is fully claimed or absent). -/
theorem solve_case_conserves_asset_value (exs : List Exemption) (case : Case)
    (fuel : Nat) (r : Solution)
    (hval : ∀ a ∈ case.assets, 0 ≤ a.dollar_value)
    (hnodup : ((case.assets.map Asset.description)).Nodup)
    (hlim : ∀ e ∈ exs, 0 ≤ (limit_for case.has_married_couple e).getD 0)
    (hcnt : ∀ e ∈ exs, 0 ≤ (item_count_for case.has_married_couple e).getD 0)
    (hpil : ∀ e ∈ exs, 0 ≤ e.per_item_limit.getD 0)
    (hr : solve_case_for_jurisdiction exs case fuel = .ok r) :
    ∀ a ∈ case.assets,
      claimed_total r a.description + residual r a.description =
        a.dollar_value := by
  unfold solve_case_for_jurisdiction at hr
  split at hr
  · simp at hr
  next s0 hinit =>
    rcases (search_result_reached_aux fuel).1 _ _ _ _ hr with ⟨o, ho, -⟩ | hpath
    · exact absurd ho (by simp)
    · obtain ⟨hne, hclaimed0, -⟩ := init_solution_shape hinit
      have hnn : nonneg_state s0 :=
        init_solution_nonneg hlim hcnt hpil hinit
      obtain ⟨hval', hnodup'⟩ := prepare_assets_side exs case hval hnodup
      have hfresh' : ∀ a ∈ prepare_assets exs case.assets,
          s0.non_exempt_assets.find? a.description = none := by
        intro a ha
        rw [hne]
        rfl
      obtain ⟨hcons, -⟩ :=
        searchPath_conservation hpath hnn hval' hnodup' hfresh'
      intro a ha
      have h2 : claimed_total r a.description + residual r a.description =
          claimed_total s0 a.description + a.dollar_value :=
        hcons { a with applicable_exemptions :=
            (a.applicable_exemptions.filter
              (fun c => c ∈ exemption_citations exs)) }
          (prepare_assets_mem exs case.assets ha)
      have hc0 : claimed_total s0 a.description = 0 := by
        unfold claimed_total
        rw [hclaimed0]
        rfl
      rw [h2, hc0]
      omega

/-- Witness for C3 on the car case over statutes A and B: the car's 1200 is
exactly the 1200 claimed under A plus a 0 residual. -/
theorem solve_case_conserves_asset_value_witness :
    ((car_case.assets.map Asset.description)).Nodup ∧
    (∀ a ∈ car_case.assets,
      claimed_total car_case_solution a.description +
        residual car_case_solution a.description = a.dollar_value) :=
  ⟨by decide,
    solve_case_conserves_asset_value [exA, exB] car_case 10 car_case_solution
      (by decide) (by decide) (by decide) (by decide) (by decide) (by decide)⟩

end OpenExempt
